import Mathlib

/-!
Verification development for the RagicDataBackup repository.

The definitions below are a shallow embedding of the Python sources under
src/: `ragic_client.py` (RagicClient._parse_dt, RagicClient.fetch_data's
retry loop, RagicClient.fetch_since_local_paged), `data_transformer.py`
(DataTransformer._convert_field_type, _get_default_value, _normalize_date,
_normalize_timestamp, _transform_single_record, transform_data),
`bigquery_uploader.py` (the MERGE statement semantics of _upload_with_merge,
_upload_with_insert, upload_data, truncate_table),
`config_field_mapping.py` (translate_field, auto_convert_field_name,
get_field_mapping and the static mapping tables), and
`erp_backup_main.py` (the watermark parsing of fetch_ragic_data_for_sheet).

Modelling conventions:
- Python `datetime` values are represented by `CivilDT` (naive wall-clock
  fields) and, for timezone-aware values, by their UTC instant in seconds
  since the Unix epoch (`Int`).  Aware datetimes are only ever compared in
  the sources, and comparison of aware datetimes depends only on the
  instant.  Comparing an aware with a naive datetime raises `TypeError` in
  Python; this is modelled as `Except Unit` with `.error ()`.
- CPython's `strptime` is embedded for the exact directives the sources
  use (%Y %m %d %H %M %S and literal separators), following the regular
  expressions of Lib/_strptime.py, including their alternation order and
  the date-validity check of the `datetime` constructor.
- `datetime.fromisoformat` is embedded in its pre-3.11 strict form for the
  shapes the data can take: `YYYY-MM-DD[<sep>HH:MM[:SS][±HH:MM]]`.
  Fractional seconds are not modelled (the sources never produce them and
  the repository's timestamps are whole seconds).
- Python machine floats are modelled as exact rationals (ℚ): the claims
  under verification only concern parse failure defaults and the value of
  `"1,234.50"`, which is exactly representable; `inf`/`nan` literal forms
  and digit underscores are outside the model.
- HTTP transport is modelled as an oracle function from (offset, attempt)
  to an outcome; BigQuery's client is modelled by boolean success knobs
  together with a log of the actions issued against it.
-/

namespace RagicBackup

deriving instance DecidableEq for Except

/-- Civil (wall-clock) date-time fields, the content of a Python naive
`datetime` (sub-second precision is not used by the sources). -/
structure CivilDT where
  year : Nat
  month : Nat
  day : Nat
  hour : Nat
  minute : Nat
  second : Nat
deriving DecidableEq, Repr

/-- Gregorian leap-year test, as used by Python's `calendar`/`datetime`. -/
def isLeap (y : Nat) : Bool :=
  (y % 4 == 0 && y % 100 != 0) || y % 400 == 0

/-- Number of days in a month of a given year. -/
def daysInMonth (y m : Nat) : Nat :=
  if m = 2 then (if isLeap y then 29 else 28)
  else if m = 4 ∨ m = 6 ∨ m = 9 ∨ m = 11 then 30
  else 31

/-- Validity check performed by the `datetime` constructor
(`MINYEAR = 1`, `MAXYEAR = 9999`). -/
def validCivil (c : CivilDT) : Bool :=
  1 ≤ c.year && c.year ≤ 9999 &&
  1 ≤ c.month && c.month ≤ 12 &&
  1 ≤ c.day && c.day ≤ daysInMonth c.year c.month &&
  c.hour ≤ 23 && c.minute ≤ 59 && c.second ≤ 59

/-- Days from 1970-01-01 to the given proleptic-Gregorian date (negative for
earlier dates).  Standard civil-from-days algorithm; all intermediate
divisions act on non-negative operands for the years the sources accept. -/
def daysFromCivil (y m d : Nat) : Int :=
  let yAdj : Int := if m ≤ 2 then (y : Int) - 1 else (y : Int)
  let era : Int := (if 0 ≤ yAdj then yAdj else yAdj - 399) / 400
  let yoe : Int := yAdj - era * 400
  let mp : Int := ((m : Int) + 9) % 12
  let doy : Int := (153 * mp + 2) / 5 + (d : Int) - 1
  let doe : Int := yoe * 365 + yoe / 4 - yoe / 100 + doy
  era * 146097 + doe - 719468

/-- Seconds since the Unix epoch of a civil date-time read in UTC. -/
def toEpochSeconds (c : CivilDT) : Int :=
  daysFromCivil c.year c.month c.day * 86400
    + (c.hour : Int) * 3600 + (c.minute : Int) * 60 + (c.second : Int)

/-- UTC instant of a civil date-time read at a fixed offset of `offMin`
minutes east of UTC (Python `replace(tzinfo=tz).astimezone(timezone.utc)`
for a fixed-offset `tz`). -/
def instantOfAware (c : CivilDT) (offMin : Int) : Int :=
  toEpochSeconds c - offMin * 60

/-! strptime embedding.  The sources call `datetime.strptime` with format
strings built from the directives %Y %m %d %H %M %S and the literal
separators `/`, `-`, space and `:`.  CPython compiles each directive to a
regular expression (Lib/_strptime.py):
  %Y → `\d\d\d\d`            (exactly four digits)
  %m → `1[0-2]|0[1-9]|[1-9]`
  %d → `3[01]|[12]\d|0[1-9]|[1-9]`
  %H → `2[0-3]|[0-1]\d|\d`
  %M, %S → `[0-5]\d|\d`
and the whole string must be consumed.  The two-character alternatives of
each directive are mutually exclusive, so they are merged below into one
two-character candidate tried before the one-character candidate, with
backtracking, which reproduces the regex alternation semantics. -/

/-- Tokens of a compiled strptime format string. -/
inductive DTTok where
  | lit (c : Char)
  | year
  | month
  | day
  | hour
  | minute
  | second
deriving DecidableEq, Repr

/-- Numeric value of a digit character. -/
def digitVal (c : Char) : Nat := c.toNat - 48

/-! Python string primitives, embedded over character lists so that every
definition evaluates inside the kernel.  (Python `str.strip` removes
Unicode whitespace; the model covers the ASCII whitespace the data can
contain.) -/

/-- Python `s.strip()`. -/
def pyStrip (s : String) : String :=
  String.mk (((s.data.dropWhile Char.isWhitespace).reverse.dropWhile
    Char.isWhitespace).reverse)

/-- Python `s.replace(c, rep)` for a one-character pattern (the only shape
the sources use: `replace(',', '')`, `replace('Z', '+00:00')`,
`replace('Z', '')`). -/
def pyReplaceChar (s : String) (c : Char) (rep : String) : String :=
  String.mk ((s.data.map (fun x => if x = c then rep.data else [x])).flatten)

/-- Python `c in s` for a single character. -/
def pyContainsChar (s : String) (c : Char) : Bool :=
  s.data.contains c

/-- Python `s.split(c)` for a one-character separator (empty parts are
kept, as in Python). -/
def pySplitOnCharAux (c : Char) : List Char → List Char → List String
  | [], cur => [String.mk cur.reverse]
  | x :: rest, cur =>
      if x = c then String.mk cur.reverse :: pySplitOnCharAux c rest []
      else pySplitOnCharAux c rest (x :: cur)

/-- Python `s.split(c)`. -/
def pySplitOnChar (s : String) (c : Char) : List String :=
  pySplitOnCharAux c s.data []

/-- Python `s.lower()` (ASCII level). -/
def pyLower (s : String) : String :=
  String.mk (s.data.map Char.toLower)

/-- Python `s[:n]`. -/
def pyTake (s : String) (n : Nat) : String :=
  String.mk (s.data.take n)

/-- Two-character candidate value of a numeric strptime directive, following
the union of the two-character regex alternatives. -/
def twoCand : DTTok → Char → Char → Option Nat
  | .year, _, _ => none
  | .lit _, _, _ => none
  | .month, a, b =>
      if (a = '1' && '0' ≤ b && b ≤ '2') || (a = '0' && '1' ≤ b && b ≤ '9') then
        some (10 * digitVal a + digitVal b)
      else none
  | .day, a, b =>
      if (a = '3' && ('0' ≤ b && b ≤ '1')) || ((a = '1' || a = '2') && b.isDigit) ||
          (a = '0' && '1' ≤ b && b ≤ '9') then
        some (10 * digitVal a + digitVal b)
      else none
  | .hour, a, b =>
      if (a = '2' && '0' ≤ b && b ≤ '3') || ((a = '0' || a = '1') && b.isDigit) then
        some (10 * digitVal a + digitVal b)
      else none
  | .minute, a, b =>
      if '0' ≤ a && a ≤ '5' && b.isDigit then some (10 * digitVal a + digitVal b) else none
  | .second, a, b =>
      if '0' ≤ a && a ≤ '5' && b.isDigit then some (10 * digitVal a + digitVal b) else none

/-- One-character candidate value of a numeric strptime directive. -/
def oneCand : DTTok → Char → Option Nat
  | .year, _ => none
  | .lit _, _ => none
  | .month, a => if '1' ≤ a && a ≤ '9' then some (digitVal a) else none
  | .day, a => if '1' ≤ a && a ≤ '9' then some (digitVal a) else none
  | .hour, a => if a.isDigit then some (digitVal a) else none
  | .minute, a => if a.isDigit then some (digitVal a) else none
  | .second, a => if a.isDigit then some (digitVal a) else none

/-- Store a directive's parsed value into the accumulating civil fields. -/
def setTok : DTTok → Nat → CivilDT → CivilDT
  | .year, v, c => { c with year := v }
  | .month, v, c => { c with month := v }
  | .day, v, c => { c with day := v }
  | .hour, v, c => { c with hour := v }
  | .minute, v, c => { c with minute := v }
  | .second, v, c => { c with second := v }
  | .lit _, _, c => c

/-- Match a compiled format against the characters, requiring the whole
input to be consumed, with regex-style backtracking between the two- and
one-character candidates of each directive. -/
def matchSeq : List DTTok → List Char → CivilDT → Option CivilDT
  | [], [], acc => some acc
  | [], _ :: _, _ => none
  | _ :: _, [], _ => none
  | .lit c :: ts, x :: rest, acc =>
      if x = c then matchSeq ts rest acc else none
  | .year :: ts, l, acc =>
      match l with
      | a :: b :: c :: d :: rest =>
          if a.isDigit && b.isDigit && c.isDigit && d.isDigit then
            matchSeq ts rest
              (setTok .year
                (1000 * digitVal a + 100 * digitVal b + 10 * digitVal c + digitVal d) acc)
          else none
      | _ => none
  | tok :: ts, a :: b :: rest, acc =>
      (match twoCand tok a b with
       | some v =>
           match matchSeq ts rest (setTok tok v acc) with
           | some r => some r
           | none =>
               match oneCand tok a with
               | some w => matchSeq ts (b :: rest) (setTok tok w acc)
               | none => none
       | none =>
           match oneCand tok a with
           | some w => matchSeq ts (b :: rest) (setTok tok w acc)
           | none => none)
  | tok :: ts, [a], acc =>
      match oneCand tok a with
      | some w => matchSeq ts [] (setTok tok w acc)
      | none => none

/-- The default fields of a strptime parse (CPython starts from
1900-01-01 00:00:00). -/
def strptimeBase : CivilDT := ⟨1900, 1, 1, 0, 0, 0⟩

/-- Python `datetime.strptime(s, fmt)` for the formats the sources use:
match the compiled format, then apply the `datetime` constructor's
validity check. -/
def pyStrptime (fmt : List DTTok) (s : String) : Option CivilDT :=
  match matchSeq fmt s.toList strptimeBase with
  | some c => if validCivil c then some c else none
  | none => none

/-- Compiled `%Y/%m/%d %H:%M:%S`. -/
def fmtSlashFull : List DTTok :=
  [.year, .lit '/', .month, .lit '/', .day, .lit ' ', .hour, .lit ':', .minute, .lit ':', .second]

/-- Compiled `%Y-%m-%d %H:%M:%S`. -/
def fmtDashFull : List DTTok :=
  [.year, .lit '-', .month, .lit '-', .day, .lit ' ', .hour, .lit ':', .minute, .lit ':', .second]

/-- Compiled `%Y/%m/%d`. -/
def fmtSlashDate : List DTTok := [.year, .lit '/', .month, .lit '/', .day]

/-- Compiled `%Y-%m-%d`. -/
def fmtDashDate : List DTTok := [.year, .lit '-', .month, .lit '-', .day]

/-- Compiled `%Y%m%d`. -/
def fmtCompactDate : List DTTok := [.year, .month, .day]

/-- Compiled `%Y-%m-%d %H:%M`. -/
def fmtDashHM : List DTTok :=
  [.year, .lit '-', .month, .lit '-', .day, .lit ' ', .hour, .lit ':', .minute]

/-- Compiled `%Y/%m/%d %H:%M`. -/
def fmtSlashHM : List DTTok :=
  [.year, .lit '/', .month, .lit '/', .day, .lit ' ', .hour, .lit ':', .minute]

/-- Compiled `%Y%m%d%H%M%S` (the 14-digit compact timestamp form). -/
def fmtCompact14 : List DTTok := [.year, .month, .day, .hour, .minute, .second]

/-! fromisoformat embedding (pre-3.11 strict grammar, without fractional
seconds): `YYYY-MM-DD`, optionally followed by one separator character and
`HH:MM`, optionally `:SS`, optionally an offset `±HH:MM`.  Returns the
civil fields and, when present, the offset in minutes east of UTC. -/

/-- Parse exactly two digits. -/
def parseTwoDigits : List Char → Option (Nat × List Char)
  | a :: b :: rest =>
      if a.isDigit && b.isDigit then some (10 * digitVal a + digitVal b, rest) else none
  | _ => none

/-- Parse the optional `±HH:MM` timezone suffix; the whole remainder must be
consumed.  Returns the offset in minutes (Python accepts any `HH:MM` with
`MM ≤ 59` and magnitude below one day). -/
def parseIsoOffset : List Char → Option Int
  | [] => none
  | s :: rest =>
      if s = '+' ∨ s = '-' then
        match rest with
        | h1 :: h2 :: ':' :: m1 :: m2 :: [] =>
            if h1.isDigit && h2.isDigit && m1.isDigit && m2.isDigit then
              let hh := 10 * digitVal h1 + digitVal h2
              let mm := 10 * digitVal m1 + digitVal m2
              if hh ≤ 23 && mm ≤ 59 then
                some ((if s = '-' then -1 else 1) * ((hh : Int) * 60 + mm))
              else none
            else none
        | _ => none
      else none

/-- Parse the time-of-day part `HH:MM[:SS]` followed by an optional offset;
the whole remainder must be consumed. -/
def parseIsoTime : List Char → Option (Nat × Nat × Nat × Option Int)
  | l =>
      match parseTwoDigits l with
      | none => none
      | some (hh, rest1) =>
          match rest1 with
          | ':' :: rest2 =>
              match parseTwoDigits rest2 with
              | none => none
              | some (mm, rest3) =>
                  match rest3 with
                  | [] => some (hh, mm, 0, none)
                  | ':' :: rest4 =>
                      match parseTwoDigits rest4 with
                      | none => none
                      | some (ss, rest5) =>
                          match rest5 with
                          | [] => some (hh, mm, ss, none)
                          | _ =>
                              match parseIsoOffset rest5 with
                              | some off => some (hh, mm, ss, some off)
                              | none => none
                  | _ =>
                      match parseIsoOffset rest3 with
                      | some off => some (hh, mm, 0, some off)
                      | none => none
          | _ => none

/-- Python `datetime.fromisoformat` (pre-3.11 strict form, sub-second parts
not modelled): civil fields plus the offset in minutes when the input is
timezone-aware.  Includes the `datetime` constructor's validity check. -/
def pyFromIso (s : String) : Option (CivilDT × Option Int) :=
  match s.toList with
  | y1 :: y2 :: y3 :: y4 :: '-' :: m1 :: m2 :: '-' :: d1 :: d2 :: rest =>
      if y1.isDigit && y2.isDigit && y3.isDigit && y4.isDigit &&
          m1.isDigit && m2.isDigit && d1.isDigit && d2.isDigit then
        let y := 1000 * digitVal y1 + 100 * digitVal y2 + 10 * digitVal y3 + digitVal y4
        let mo := 10 * digitVal m1 + digitVal m2
        let d := 10 * digitVal d1 + digitVal d2
        match rest with
        | [] =>
            let c : CivilDT := ⟨y, mo, d, 0, 0, 0⟩
            if validCivil c then some (c, none) else none
        | _ :: timePart =>
            match parseIsoTime timePart with
            | none => none
            | some (hh, mm, ss, off) =>
                let c : CivilDT := ⟨y, mo, d, hh, mm, ss⟩
                if validCivil c then some (c, off) else none
      else none
  | _ => none

/-- Modelled from the spec: the fixed UTC+8 offset of the deployment.
`ragic_client.py` imports `TAIPEI_TZ` from `data_transformer`, but no file
under src/ defines it; the spec states naive timestamps are interpreted at
"a fixed UTC+8 offset in this deployment", so it is modelled as the fixed
offset of 480 minutes east of UTC. -/
def TAIPEI_OFFSET_MINUTES : Int := 480

/-- The four patterns `RagicClient._DT_PATTERNS`, in source order. -/
def DT_PATTERNS : List (List DTTok) :=
  [fmtSlashFull, fmtDashFull, fmtSlashDate, fmtDashDate]

/-- First pattern of `_DT_PATTERNS` that parses the string (the source
loop breaks on the first success). -/
def strptimeAny (s : String) : Option CivilDT :=
  DT_PATTERNS.findSome? (fun p => pyStrptime p s)

/-- Embedding of `RagicClient._parse_dt` for string inputs: falsy input
gives None; the input is stripped; if it contains `T`, `fromisoformat` is
tried on the string with `Z` replaced by `+00:00` (aware results return
immediately as UTC instants, naive results are kept); then the
`_DT_PATTERNS` loop may overwrite the naive parse; a surviving naive parse
is interpreted at the fixed UTC+8 offset and converted to a UTC instant. -/
def parse_dt (v : String) : Option Int :=
  if v = "" then none
  else
    let s := pyStrip v
    let isoRes : Option (CivilDT × Option Int) :=
      if pyContainsChar s 'T' then pyFromIso (pyReplaceChar s 'Z' "+00:00") else none
    match isoRes with
    | some (c, some off) => some (instantOfAware c off)
    | other =>
        let isoNaive : Option CivilDT :=
          match other with
          | some (c, none) => some c
          | _ => none
        match (strptimeAny s).orElse (fun _ => isoNaive) with
        | none => none
        | some c => some (instantOfAware c TAIPEI_OFFSET_MINUTES)

/-- A Python datetime as it flows into the `>=` comparison of
`fetch_since_local_paged`: either naive (no tzinfo) or timezone-aware,
the latter represented by its UTC instant. -/
inductive PyDT where
  | naive (c : CivilDT)
  | utc (instant : Int)
deriving DecidableEq, Repr

/-- Python `dt >= w` where `dt` is timezone-aware (the result of
`_parse_dt`): comparing with a naive datetime raises `TypeError`,
modelled as `.error ()`. -/
def awareGE (dt : Int) : PyDT → Except Unit Bool
  | .utc w => .ok (decide (w ≤ dt))
  | .naive _ => .error ()

/-- Python `dt > w` for a timezone-aware `dt`, as `awareGE`. -/
def awareGT (dt : Int) : PyDT → Except Unit Bool
  | .utc w => .ok (decide (w < dt))
  | .naive _ => .error ()

/-- A raw Ragic record: an ordered mapping from field names to string
values (one page entry of the JSON object-of-objects). -/
abbrev RagicRecord := List (String × String)

/-- Lookup of a field value (Python `rec.get(name)` on a dict). -/
def recGet (rec : RagicRecord) (k : String) : Option String :=
  (rec.find? (fun p => p.1 = k)).map (·.2)

/-- The modification instant of a record: the loop over
`last_modified_field_names` takes, for each candidate name present in the
record, `_parse_dt` of its value, and breaks at the first truthy parse
(a name that is absent, or present but unparseable, falls through to the
next name). -/
def recDT (names : List String) (rec : RagicRecord) : Option Int :=
  names.findSome? (fun n => (recGet rec n).bind parse_dt)

/-- Classification of one record inside the page loop of
`fetch_since_local_paged`:
`if dt and until_dt and dt > until_dt: pass`
`elif dt and dt >= since_dt: collected.append(rec)`. -/
def classifyRecord (names : List String) (since : PyDT) (untilDt : Option PyDT)
    (rec : RagicRecord) : Except Unit Bool :=
  match recDT names rec with
  | none => .ok false
  | some dt =>
      match untilDt with
      | some u => do
          let gt ← awareGT dt u
          if gt then .ok false else awareGE dt since
      | none => awareGE dt since

/-- Per-page record loop of `fetch_since_local_paged`: returns the
qualifying records of the page in order, and whether any record in the
page had a parseable modification time (`any_parsed`).  A `TypeError`
raised by a comparison aborts the page (and the whole fetch). -/
def processPage (names : List String) (since : PyDT) (untilDt : Option PyDT) :
    List RagicRecord → Except Unit (List RagicRecord × Bool)
  | [] => .ok ([], false)
  | rec :: rest =>
      match classifyRecord names since untilDt rec with
      | .error e => .error e
      | .ok keep =>
          match processPage names since untilDt rest with
          | .error e => .error e
          | .ok (tl, anyRest) =>
              .ok (if keep then rec :: tl else tl,
                   (recDT names rec).isSome || anyRest)

/-- Outcome of one HTTP GET attempt for a page. -/
inductive NetResult where
  | ok (page : List RagicRecord)
  | readTimeout
  | failure
deriving DecidableEq, Repr

/-- Transport oracle: offset and attempt number (0 = first try, 1 = the
single quick retry of `fetch_since_local_paged`) to an outcome. -/
abbrev Net := Nat → Nat → NetResult

/-- Page acquisition of `fetch_since_local_paged`: one GET; on
`ReadTimeout` a single immediate retry; any other failure, or a failed
retry, yields `none` (the source logs a warning and breaks the loop). -/
def pageFetch (net : Net) (offset : Nat) : Option (List RagicRecord) :=
  match net offset 0 with
  | .ok d => some d
  | .readTimeout =>
      match net offset 1 with
      | .ok d => some d
      | _ => none
  | .failure => none

/-- Page loop of `fetch_since_local_paged` (fuel = remaining pages under
`max_pages`): fetch a page; a transport failure or an empty page breaks,
returning the records collected so far; otherwise process the page,
extend the collection, update the consecutive-no-new-data counter, and
stop on: counter at threshold, short page, or no parseable date in the
page; otherwise continue at the next offset. -/
def fetchSinceAux (net : Net) (names : List String) (since : PyDT)
    (untilDt : Option PyDT) (limit thresh : Nat) :
    Nat → Nat → Nat → List RagicRecord → Except Unit (List RagicRecord)
  | 0, _, _, acc => .ok acc
  | fuel + 1, offset, consec, acc =>
      match pageFetch net offset with
      | none => .ok acc
      | some data =>
          if data.isEmpty then .ok acc
          else
            match processPage names since untilDt data with
            | .error e => .error e
            | .ok (quals, anyParsed) =>
                let acc2 := acc ++ quals
                let consec2 := if quals.length = 0 then consec + 1 else 0
                if thresh ≤ consec2 then .ok acc2
                else if data.length < limit then .ok acc2
                else if anyParsed = false then .ok acc2
                else fetchSinceAux net names since untilDt limit thresh fuel
                  (offset + limit) consec2 acc2

/-- Embedding of `RagicClient.fetch_since_local_paged`: scan from offset 0
with the consecutive-no-new-data counter at 0 and nothing collected. -/
def fetch_since_local_paged (net : Net) (names : List String) (since : PyDT)
    (untilDt : Option PyDT) (limit maxPages thresh : Nat) :
    Except Unit (List RagicRecord) :=
  fetchSinceAux net names since untilDt limit thresh maxPages 0 0 []

/-- Transport for a table served in `_ragicId` ascending order with no
server-side filter: the page at `offset` is the corresponding slice, and
every attempt succeeds. -/
def tableNet (tbl : List RagicRecord) (limit : Nat) : Net :=
  fun offset _ => .ok ((tbl.drop offset).take limit)

/-- Boolean qualification of a record against a UTC watermark (the shape
`fetch_since_local_paged` retains when no upper bound is given). -/
def qualifies (names : List String) (w : Int) (rec : RagicRecord) : Bool :=
  match recDT names rec with
  | some t => decide (w ≤ t)
  | none => false

/-- Watermark parsing of `ERPBackupSystem.fetch_ragic_data_for_sheet`
(erp_backup_main.py): try the four formats in order with
`datetime.strptime`, producing a naive datetime; the result is handed to
`fetch_since_local_paged` unchanged. -/
def parseSinceDt (lastSyncTime : String) : Option CivilDT :=
  [fmtSlashFull, fmtDashFull, fmtSlashDate, fmtDashDate].findSome?
    (fun p => pyStrptime p lastSyncTime)

/-! Retry loop of `RagicClient.fetch_data`.  Each page request runs
`for retry in range(self.max_retries + 1)`: a successful GET breaks out;
a `Timeout`/`ConnectionError` raises once `retry == max_retries` and
otherwise sleeps `2 ** retry` seconds before the next attempt; HTTP
errors raise immediately. -/

/-- Outcome of one attempt of a `fetch_data` page request. -/
inductive AttemptOutcome (α : Type) where
  | success (a : α)
  | transient
  | httpError (code : Nat)
deriving DecidableEq, Repr

/-- The retry loop of `fetch_data`, with the attempt index `i` and fuel
(the loop runs at most `max_retries + 1` times); returns the result
together with the list of back-off sleeps performed, in order. -/
def retryAux {α : Type} (att : Nat → AttemptOutcome α) (maxRetries : Nat) :
    Nat → Nat → Except String α × List Nat
  | 0, _ => (.error "loop exhausted", [])
  | fuel + 1, i =>
      match att i with
      | .success a => (.ok a, [])
      | .transient =>
          if i = maxRetries then
            (.error "API 請求失敗（已重試）", [])
          else
            let (r, sleeps) := retryAux att maxRetries fuel (i + 1)
            (r, 2 ^ i :: sleeps)
      | .httpError code =>
          if code = 401 then (.error "API 認證失敗", [])
          else if code = 404 then (.error "找不到表單", [])
          else (.error "HTTP 錯誤", [])

/-- One page request of `fetch_data` with its retry loop. -/
def fetchDataPage {α : Type} (att : Nat → AttemptOutcome α) (maxRetries : Nat) :
    Except String α × List Nat :=
  retryAux att maxRetries (maxRetries + 1) 0

/-! Embedding of `DataTransformer` (data_transformer.py).  The transformer
is modelled in the configuration the sources run it in when no dynamic
mapper is attached (`self.dynamic_mapper is None`), so an unmapped field
takes the fallback branch: it is counted as unknown and either dropped
(strict mode) or passed through under its original name. -/

/-- A raw scalar value of a Ragic record field as seen by the transformer
(JSON string, integer, or null; floats do not occur in the claims). -/
inductive RawVal where
  | null
  | str (s : String)
  | int (n : Int)
deriving DecidableEq, Repr

/-- Python `str(value)` for the modelled scalars. -/
def pyStr : RawVal → String
  | .null => "None"
  | .str s => s
  | .int n => toString n

/-- Python truthiness of the modelled scalars. -/
def pyTruthy : RawVal → Bool
  | .null => false
  | .str s => s ≠ ""
  | .int n => n ≠ 0

/-- The null-or-blank test `value is None or (isinstance(value, str) and
value.strip() == "")` used by `_transform_single_record` and, in the
equivalent form `not value or (isinstance(value, str) and
value.strip() == "")`, by `_convert_field_type` (for strings and null the
two agree; a zero integer is falsy only for the latter). -/
def isNullOrBlank : RawVal → Bool
  | .null => true
  | .str s => pyStrip s = ""
  | .int _ => false

/-- The `not value or blank-string` guard of `_convert_field_type`. -/
def isFalsyOrBlank (v : RawVal) : Bool :=
  !pyTruthy v || isNullOrBlank v

/-- A typed output value of the transformer.  Python floats are modelled
as exact rationals (see the module docstring). -/
inductive TVal where
  | null
  | str (s : String)
  | float (q : ℚ)
  | int (n : Int)
  | bool (b : Bool)
deriving DecidableEq, Repr

/-- The `self.float_fields` set. -/
def floatFields : List String :=
  ["product_msrp", "order_msrp", "order_regular_price", "gross_revenue",
   "net_revenue", "shipping_fee_income", "cash_on_delivery_amount",
   "product_regular_price", "product_msrp_subtotal", "product_regular_price_subtotal",
   "shipping_fee"]

/-- The `self.integer_fields` set. -/
def integerFields : List String := ["quantity", "birth_year"]

/-- The `self.boolean_fields` set. -/
def booleanFields : List String := ["is_invoice_issued", "is_invoice_donated"]

/-- The `self.date_fields` set. -/
def dateFields : List String := ["order_date", "requested_delivery_date", "birthday"]

/-- The `self.timestamp_fields` set. -/
def timestampFields : List String :=
  ["created_at", "updated_at", "sync_sales_report_update_time",
   "sync_sales_report_cancellation_time", "sync_order_mgmt_cancellation_time",
   "last_modified_date", "payment_update_execution_time"]

/-- The `self.raw_pairs` map of fields whose original string is kept in a
paired raw column. -/
def rawPairs : List (String × String) :=
  [("requested_delivery_date", "requested_delivery_date_raw"),
   ("birthday", "birthday_raw"),
   ("created_at", "created_at_raw"),
   ("updated_at", "updated_at_raw"),
   ("sync_sales_report_update_time", "sync_sales_report_update_time_raw"),
   ("sync_sales_report_cancellation_time", "sync_sales_report_cancellation_time_raw"),
   ("sync_order_mgmt_cancellation_time", "sync_order_mgmt_cancellation_time_raw"),
   ("last_modified_date", "last_modified_date_raw"),
   ("payment_update_execution_time", "payment_update_execution_time_raw")]

/-- The `self.non_nullable_fields` set. -/
def nonNullableFields : List String := ["_ragicId"]

/-- Lookup in an ordered association list (first match). -/
def assocGet {β : Type} (d : List (String × β)) (k : String) : Option β :=
  (d.find? (fun p => p.1 = k)).map (·.2)

/-- Python dict setitem on an ordered association list: overwrite in place
when the key exists, else append. -/
def dictSet {β : Type} (d : List (String × β)) (k : String) (v : β) :
    List (String × β) :=
  if d.any (fun p => p.1 = k) then
    d.map (fun p => if p.1 = k then (k, v) else p)
  else d ++ [(k, v)]

/-- Increment a counter dict entry (`d[k] = d.get(k, 0) + 1`). -/
def bumpCount (d : List (String × Nat)) (k : String) : List (String × Nat) :=
  dictSet d k ((assocGet d k).getD 0 + 1)

/-- An output record of the transformer (a Python dict, in insertion
order). -/
abbrev OutRec := List (String × TVal)

/-- Parse an unsigned run of decimal digits (value, digit count, rest). -/
def parseDigitRun : List Char → Nat → Nat → (Nat × Nat × List Char)
  | c :: rest, acc, n =>
      if c.isDigit then parseDigitRun rest (10 * acc + digitVal c) (n + 1)
      else (acc, n, c :: rest)
  | [], acc, n => (acc, n, [])

/-- Python `float(s)` on an already-stripped string, for finite decimal
literals `[+-]? (digits [. digits?] | . digits) ([eE] [+-]? digits)?`,
as an exact rational.  (`inf`/`nan` and digit underscores are outside the
model.) -/
def pyFloatParse (s : String) : Option ℚ :=
  let l := s.toList
  let (sign, l1) :=
    match l with
    | '+' :: r => ((1 : ℚ), r)
    | '-' :: r => ((-1 : ℚ), r)
    | r => ((1 : ℚ), r)
  let (ip, ipn, l2) := parseDigitRun l1 0 0
  let mant : Option (ℚ × List Char) :=
    match l2 with
    | '.' :: r =>
        let (fp, fpn, l3) := parseDigitRun r 0 0
        if ipn = 0 && fpn = 0 then none
        else some ((ip : ℚ) + (fp : ℚ) / ((10 : ℚ) ^ fpn), l3)
    | _ => if ipn = 0 then none else some ((ip : ℚ), l2)
  match mant with
  | none => none
  | some (m, l4) =>
      match l4 with
      | [] => some (sign * m)
      | e :: r =>
          if e = 'e' ∨ e = 'E' then
            let (esign, r1) :=
              match r with
              | '+' :: r2 => ((1 : Int), r2)
              | '-' :: r2 => ((-1 : Int), r2)
              | r2 => ((1 : Int), r2)
            let (ev, evn, r3) := parseDigitRun r1 0 0
            if evn = 0 ∨ r3 ≠ [] then none
            else
              let scaled :=
                if esign = 1 then m * (10 : ℚ) ^ ev else m / ((10 : ℚ) ^ ev)
              some (sign * scaled)
          else none

/-- Python `int(float(s))`: truncation toward zero. -/
def truncToInt (q : ℚ) : Int := q.num / (q.den : Int)

/-- The invalid-token set shared by `_normalize_date` and
`_normalize_timestamp`. -/
def invalidDateTokens : List String :=
  ["不指定", "N/A", "NA", "-", "—", "null", "None", "ADDLINE"]

/-- Left-pad a number to two digits (`%02d`, and the two-digit fields of
`strftime`). -/
def pad2 (n : Nat) : String :=
  if n < 10 then "0" ++ toString n else toString n

/-- Four-digit year field of `strftime`. -/
def pad4 (n : Nat) : String :=
  if n < 10 then "000" ++ toString n
  else if n < 100 then "00" ++ toString n
  else if n < 1000 then "0" ++ toString n
  else toString n

/-- `strftime("%Y-%m-%d")`. -/
def formatDate (c : CivilDT) : String :=
  pad4 c.year ++ "-" ++ pad2 c.month ++ "-" ++ pad2 c.day

/-- `strftime("%Y-%m-%dT%H:%M:%S")`. -/
def formatTimestamp (c : CivilDT) : String :=
  pad4 c.year ++ "-" ++ pad2 c.month ++ "-" ++ pad2 c.day ++ "T" ++
    pad2 c.hour ++ ":" ++ pad2 c.minute ++ ":" ++ pad2 c.second

/-- The candidate formats of `_normalize_date`, in source order. -/
def normalizeDateFmts : List (List DTTok) :=
  [fmtDashDate, fmtSlashDate, fmtCompactDate, fmtDashFull, fmtSlashFull,
   fmtDashHM, fmtSlashHM]

/-- The candidate formats of `_normalize_timestamp`, in source order. -/
def normalizeTimestampFmts : List (List DTTok) :=
  [fmtDashFull, fmtSlashFull, fmtDashHM, fmtSlashHM, fmtDashDate, fmtSlashDate]

/-- Python `str.isdigit` on an ASCII-digit level (used on the split parts
of a month/day value). -/
def strIsDigit (s : String) : Bool :=
  s ≠ "" && s.toList.all Char.isDigit

/-- Numeric value of a digit string (Python `int(p)` for `p.isdigit()`). -/
def strToNat (s : String) : Nat :=
  s.toList.foldl (fun acc c => 10 * acc + digitVal c) 0

/-- Embedding of `DataTransformer._normalize_date`: reject the invalid
tokens, try the candidate formats, then (when configured) infer the year
of a month/day-only value from a sibling field of the partially built
record, and otherwise raise `ValueError`. -/
def normalize_date (value : String) (context : OutRec)
    (inferYearFrom : Option String) : Except String String :=
  if invalidDateTokens.contains (pyStrip value) then .error "無法解析日期"
  else
    match normalizeDateFmts.findSome? (fun p => pyStrptime p (pyStrip value)) with
    | some c => .ok (formatDate c)
    | none =>
        let v := pyStrip value
        let inferred : Option String :=
          match inferYearFrom with
          | none => none
          | some f =>
              let parts := if pyContainsChar v '/' then pySplitOnChar v '/' else pySplitOnChar v '-' 
              match parts with
              | [m, d] =>
                  if strIsDigit m && strIsDigit d then
                    match assocGet context f with
                    | some (.str ref) =>
                        if ref ≠ "" then
                          let test := pyTake ref 4 ++ "-" ++ pad2 (strToNat m) ++ "-" ++
                            pad2 (strToNat d)
                          match pyStrptime fmtDashDate test with
                          | some c2 => some (formatDate c2)
                          | none => none
                        else none
                    | _ => none
                  else none
              | _ => none
        match inferred with
        | some r => .ok r
        | none => .error "無法解析日期"

/-- Embedding of `DataTransformer._normalize_timestamp`: reject the
invalid tokens, try the candidate formats, then the 14-digit compact
form, then `fromisoformat` on the value with `Z` removed, and otherwise
raise `ValueError`. -/
def normalize_timestamp (value : String) : Except String String :=
  let v := pyStrip value
  if invalidDateTokens.contains v then .error "無法解析時間戳"
  else
    match normalizeTimestampFmts.findSome? (fun p => pyStrptime p v) with
    | some c => .ok (formatTimestamp c)
    | none =>
        let compact : Option CivilDT :=
          if strIsDigit v && v.length = 14 then pyStrptime fmtCompact14 v else none
        match compact with
        | some c => .ok (formatTimestamp c)
        | none =>
            match pyFromIso (pyReplaceChar v 'Z' "") with
            | some (c, _) => .ok (formatTimestamp c)
            | none => .error "無法解析時間戳"

/-- Embedding of `DataTransformer._get_default_value`. -/
def getDefaultValue (name : String) : TVal :=
  if dateFields.contains name || timestampFields.contains name then .null
  else if floatFields.contains name then .float 0
  else if integerFields.contains name then .int 0
  else if booleanFields.contains name then .bool false
  else .str ""

/-- Embedding of `DataTransformer._convert_field_type`: empty values take
the default; the value string is cleaned of thousands-separator commas
and stripped; then converted according to the declared type of the field
(`ValueError` from a failed parse becomes `.error`). -/
def convert_field_type (name : String) (v : RawVal) (context : OutRec) :
    Except String TVal :=
  if isFalsyOrBlank v then .ok (getDefaultValue name)
  else
    let cleaned := pyStrip (pyReplaceChar (pyStr v) ',' "")
    if floatFields.contains name then
      match pyFloatParse cleaned with
      | some q => .ok (.float q)
      | none => .error "could not convert string to float"
    else if integerFields.contains name then
      match pyFloatParse cleaned with
      | some q => .ok (.int (truncToInt q))
      | none => .error "could not convert string to float"
    else if booleanFields.contains name then
      .ok (.bool (["true", "1", "yes", "是", "開立"].contains (pyLower cleaned)))
    else if dateFields.contains name then
      if name = "requested_delivery_date" then
        (normalize_date cleaned context (some "order_date")).map .str
      else
        (normalize_date cleaned context none).map .str
    else if timestampFields.contains name then
      (normalize_timestamp cleaned).map .str
    else .ok (.str (pyStr v))

/-- A raw record as handed to the transformer (a Python dict: ordered,
unique keys). -/
abbrev RawRec := List (String × RawVal)

/-- Mutable counters of a `DataTransformer` instance touched by
`transform_data` (`unknown_fields_count`, `unknown_field_counts`,
`invalid_records`, `failure_counts`). -/
structure TState where
  unknownFieldsCount : Nat
  unknownFieldCounts : List (String × Nat)
  invalidRecords : List (Nat × List String × RawRec)
  failureCounts : List (String × Nat)
deriving DecidableEq, Repr

/-- Fresh transformer state. -/
def initTState : TState := ⟨0, [], [], []⟩

/-- Transformer configuration: the merged field mapping, the sheet code
and the strict-mode flag (dynamic mapper absent, see module docstring). -/
structure TConfig where
  fieldMapping : List (String × String)
  sheetCode : String
  dropUnmapped : Bool
deriving Repr

/-- Accumulator of the per-field loop inside `_transform_single_record`:
the record built so far, the error strings, the invalid flag, and the
transformer state. -/
structure FieldAcc where
  out : OutRec
  errors : List String
  invalid : Bool
  st : TState
deriving Repr

/-- Handling of one resolved (english key, value) pair inside the loop of
`_transform_single_record`: the null check against the non-nullable set,
then type conversion with the default-and-count fallback and the raw-pair
retention. -/
def handleValue (acc : FieldAcc) (englishKey : String) (v : RawVal) : FieldAcc :=
  if isNullOrBlank v then
    if nonNullableFields.contains englishKey then
      { acc with out := dictSet acc.out englishKey .null,
                 errors := acc.errors ++ ["欄位 " ++ englishKey ++ " 不可為空"],
                 invalid := true }
    else
      { acc with out := dictSet acc.out englishKey .null }
  else
    match convert_field_type englishKey v acc.out with
    | .ok cv =>
        match assocGet rawPairs englishKey with
        | some rawKey =>
            match v with
            | .str s =>
                if pyStrip s ≠ "" then
                  { acc with
                      out := dictSet (dictSet acc.out englishKey cv) rawKey (.str (pyStr v)) }
                else { acc with out := dictSet acc.out englishKey cv }
            | _ => { acc with out := dictSet acc.out englishKey cv }
        | none => { acc with out := dictSet acc.out englishKey cv }
    | .error _ =>
        let out2 := dictSet acc.out englishKey (getDefaultValue englishKey)
        let out3 :=
          match assocGet rawPairs englishKey with
          | some rawKey => dictSet out2 rawKey (.str (pyStr v))
          | none => out2
        { acc with
            out := out3,
            errors := acc.errors ++ ["欄位 " ++ englishKey ++ " 型別不符"],
            st := { acc.st with failureCounts := bumpCount acc.st.failureCounts englishKey } }

/-- One iteration of the `for chinese_key, value in item.items()` loop:
resolve the canonical key through the mapping (or count it unknown and
drop or pass it through), then hand off to `handleValue`. -/
def processField (cfg : TConfig) (acc : FieldAcc) (chineseKey : String)
    (v : RawVal) : FieldAcc :=
  match assocGet cfg.fieldMapping chineseKey with
  | some englishKey => handleValue acc englishKey v
  | none =>
      let st2 := { acc.st with
        unknownFieldsCount := acc.st.unknownFieldsCount + 1,
        unknownFieldCounts := bumpCount acc.st.unknownFieldCounts chineseKey }
      let acc2 := { acc with st := st2 }
      if cfg.dropUnmapped then acc2
      else handleValue acc2 chineseKey v

/-- The `_validate_required_fields` test on the built record: the value
under `_ragicId` must not be missing, `None`, or a blank string. -/
def ragicIdOK (out : OutRec) : Bool :=
  match assocGet out "_ragicId" with
  | none => false
  | some .null => false
  | some (.str s) => pyStrip s ≠ ""
  | some _ => true

/-- The `for chinese_key, value in item.items()` loop of
`_transform_single_record`, starting from an empty output record,
no errors, and the current transformer state. -/
def fieldLoop (cfg : TConfig) (st : TState) (item : RawRec) : FieldAcc :=
  item.foldl (fun a p => processField cfg a p.1 p.2) ⟨[], [], false, st⟩

/-- Embedding of `DataTransformer._transform_single_record`: run the field
loop, validate `_ragicId`, and either append an invalid-record entry and
yield no output, or inject `sheet_code` and yield the typed record. -/
def transform_single_record (cfg : TConfig) (st : TState) (item : RawRec)
    (index : Nat) : Option OutRec × TState :=
  let acc := fieldLoop cfg st item
  let idOK := ragicIdOK acc.out
  let st2 :=
    if idOK then acc.st
    else { acc.st with failureCounts := bumpCount acc.st.failureCounts "_ragicId_missing" }
  let errors2 := if idOK then acc.errors else acc.errors ++ ["缺少必要欄位：_ragicId"]
  let invalid2 := acc.invalid || !idOK
  if invalid2 then
    (none, { st2 with invalidRecords := st2.invalidRecords ++ [(index, errors2, item)] })
  else
    (some (dictSet acc.out "sheet_code" (.str cfg.sheetCode)), st2)

/-- The enumerated loop of `transform_data` (records that transform to
`None` are only counted as failed; errors below record level never
escape). -/
def transformDataAux (cfg : TConfig) :
    List RawRec → Nat → TState → List OutRec × TState
  | [], _, st => ([], st)
  | item :: rest, i, st =>
      match transform_single_record cfg st item i with
      | (some out, st2) =>
          let (tl, st3) := transformDataAux cfg rest (i + 1) st2
          (out :: tl, st3)
      | (none, st2) => transformDataAux cfg rest (i + 1) st2

/-- Embedding of `DataTransformer.transform_data` on a list input, with
the transformer's fresh per-run state. -/
def transform_data (cfg : TConfig) (batch : List RawRec) :
    List OutRec × TState :=
  transformDataAux cfg batch 0 initTState

/-! Embedding of the MERGE statement issued by
`BigQueryUploader._upload_with_merge`:

  MERGE target T
  USING (SELECT * EXCEPT(row_num) FROM
          (SELECT *, ROW_NUMBER() OVER (PARTITION BY order_id
                                        ORDER BY updated_at DESC NULLS LAST) rn
           FROM temp) WHERE rn = 1) S
  ON T.order_id = S.order_id
  WHEN MATCHED THEN UPDATE SET <every column except order_id>
  WHEN NOT MATCHED THEN INSERT <all columns>

A destination row is a business key (`order_id`, nullable), the
modification timestamp used for source-side deduplication (`updated_at`,
nullable), and the remaining columns abstracted into a payload type.
Standard SQL semantics: `PARTITION BY` puts all NULL keys into one group,
while the join predicate `T.order_id = S.order_id` is never true when
either side is NULL.  Row order (and the tie among equal `updated_at`)
is implementation-defined in the engine; the model fixes the
deterministic choice of first occurrence. -/

/-- A destination-table row for the MERGE model. -/
structure BQRow (α : Type) where
  order_id : Option String
  updated_at : Option Int
  payload : α
deriving DecidableEq, Repr

/-- Strict ordering of nullable timestamps under `DESC NULLS LAST`:
`a` ranks strictly below `b`. -/
def uaLT : Option Int → Option Int → Bool
  | _, none => false
  | none, some _ => true
  | some x, some y => decide (x < y)

/-- Row of a partition kept by `ROW_NUMBER() = 1`: the maximum
`updated_at` (NULLS LAST), first occurrence on ties. -/
def bestOf {α : Type} (b : BQRow α) (l : List (BQRow α)) : BQRow α :=
  l.foldl (fun best x => if uaLT best.updated_at x.updated_at then x else best) b

/-- Source-side deduplication of the MERGE, with structural fuel (the
list length bounds the number of distinct partitions): one row per
distinct `order_id` (NULLs forming one group), keeping the
`ROW_NUMBER() = 1` row of each partition. -/
def dedupSourceAux {α : Type} : Nat → List (BQRow α) → List (BQRow α)
  | 0, _ => []
  | _, [] => []
  | fuel + 1, r :: rest =>
      bestOf r (rest.filter fun x => x.order_id = r.order_id) ::
        dedupSourceAux fuel (rest.filter fun x => x.order_id ≠ r.order_id)

/-- Source-side deduplication of the MERGE. -/
def dedupSource {α : Type} (l : List (BQRow α)) : List (BQRow α) :=
  dedupSourceAux l.length l

/-- The join predicate `T.order_id = S.order_id`: never true when either
side is NULL. -/
def rowMatches {α : Type} (t s : BQRow α) : Bool :=
  match t.order_id, s.order_id with
  | some a, some b => a = b
  | _, _ => false

/-- The `WHEN MATCHED THEN UPDATE` action on one target row: overwrite
every non-key column from the (unique) matching source row, if any. -/
def mergeUpdateRow {α : Type} (S : List (BQRow α)) (t : BQRow α) : BQRow α :=
  match S.find? (fun s => rowMatches t s) with
  | some s => { t with updated_at := s.updated_at, payload := s.payload }
  | none => t

/-- Semantics of one MERGE run: every matched target row has all non-key
columns overwritten from its (unique) source row; source rows matching no
target row are inserted. -/
def mergeUpsert {α : Type} (target batch : List (BQRow α)) : List (BQRow α) :=
  let S := dedupSource batch
  target.map (mergeUpdateRow S) ++
    S.filter (fun s => !(target.any (fun t => rowMatches t s)))

/-! Control flow of `BigQueryUploader.upload_data` /
`_upload_with_merge` / `_upload_with_insert`, with the BigQuery client
abstracted into success knobs and a log of the upload actions issued. -/

/-- Upload actions issued against the warehouse. -/
inductive UploadAction where
  | mergeAttempt
  | insertAttempt
  | stagingAttempt
deriving DecidableEq, Repr

/-- Result dict of a successful upload (`status`, `method`,
`records_processed`). -/
structure UploadResult where
  status : String
  method : String
  recordsProcessed : Nat
deriving DecidableEq, Repr

/-- Embedding of `_upload_with_insert`: one append-load; on failure raise
(with the all-methods-failed message when running as the fallback). -/
def upload_with_insert (insertOk : Bool) (n : Nat) (isFallback : Bool) :
    Except String UploadResult × List UploadAction :=
  if insertOk then
    (.ok ⟨"success", if isFallback then "insert_fallback" else "insert", n⟩,
     [.insertAttempt])
  else
    (.error (if isFallback then "所有上傳方法都失敗" else "INSERT 操作失敗"),
     [.insertAttempt])

/-- Embedding of `_upload_with_merge`: one MERGE attempt; any failure in
the try block falls into the except branch, which runs
`_upload_with_insert(..., is_fallback=True)` exactly once. -/
def upload_with_merge (mergeOk insertOk : Bool) (n : Nat) :
    Except String UploadResult × List UploadAction :=
  if mergeOk then (.ok ⟨"success", "merge", n⟩, [.mergeAttempt])
  else
    let (r, acts) := upload_with_insert insertOk n true
    (r, .mergeAttempt :: acts)

/-- Embedding of the strategy dispatch of `upload_data` (non-empty batch):
`staging_sp` mode, or `auto` mode above the batch threshold, goes through
the staging path; otherwise the direct path uses MERGE when `use_merge`
is set and plain INSERT when not. -/
def upload_data (useMerge : Bool) (mode : String) (batchThreshold n : Nat)
    (mergeOk insertOk stagingOk : Bool) :
    Except String UploadResult × List UploadAction :=
  if mode = "staging_sp" ∨ (mode = "auto" ∧ batchThreshold < n) then
    (if stagingOk then .ok ⟨"success", "staging_sp", n⟩ else .error "載入 staging 失敗",
     [.stagingAttempt])
  else if useMerge then upload_with_merge mergeOk insertOk n
  else upload_with_insert insertOk n false

/-! Embedding of `BigQueryUploader.truncate_table`. -/

/-- Warehouse actions issued by `truncate_table`. -/
inductive BQAction where
  | ensureTableExists
  | query (sql : String)
deriving DecidableEq, Repr

/-- Embedding of `truncate_table`: without `confirm=True` it raises
`ValueError` before touching the warehouse; otherwise it ensures the
table exists, runs `TRUNCATE TABLE`, and falls back to `DELETE FROM` if
the truncate fails; a failing fallback (or ensure step) re-raises. -/
def truncate_table (projectId datasetId tableId : String) (confirm : Bool)
    (ensureOk truncateOk deleteOk : Bool) :
    Except String Unit × List BQAction :=
  if !confirm then
    (.error "為避免誤刪，truncate_table 需要 confirm=True 才能執行", [])
  else
    let tableRef := projectId ++ "." ++ datasetId ++ "." ++ tableId
    if !ensureOk then (.error "清空資料表失敗", [.ensureTableExists])
    else if truncateOk then
      (.ok (), [.ensureTableExists, .query ("TRUNCATE TABLE `" ++ tableRef ++ "`")])
    else if deleteOk then
      (.ok (), [.ensureTableExists,
                .query ("TRUNCATE TABLE `" ++ tableRef ++ "`"),
                .query ("DELETE FROM `" ++ tableRef ++ "` WHERE TRUE")])
    else
      (.error "清空資料表失敗",
       [.ensureTableExists,
        .query ("TRUNCATE TABLE `" ++ tableRef ++ "`"),
        .query ("DELETE FROM `" ++ tableRef ++ "` WHERE TRUE")])

/-! Embedding of `config_field_mapping.py`: the static mapping tables,
the merge used to build the per-sheet tables (Python dict-literal
semantics: later duplicate keys overwrite in place), and the
translation functions.  The external collaborators `pypinyin.lazy_pinyin`
and `hashlib.md5(...).hexdigest()` are deterministic pure functions of
their input and are abstracted as function parameters (`lazy_pinyin` may
raise, modelled by `Option`). -/

/-- Python dict merge of extra entries over a base dict. -/
def dictMerge (base extras : List (String × String)) : List (String × String) :=
  extras.foldl (fun d p => dictSet d p.1 p.2) base

/-- The `FIELD_MAPPING_CORE` table, verbatim in source order. -/
def FIELD_MAPPING_CORE : List (String × String) :=
  [("使用狀態", "status"),
   ("建檔日期", "created_at"),
   ("建立日期", "created_at"),
   ("建檔時間", "created_at"),
   ("建檔人員", "created_by"),
   ("建立人員", "created_by"),
   ("最後修改日期", "last_modified_date"),
   ("最後修改時間", "last_modified_date"),
   ("最後修改人員", "last_modified_by"),
   ("品牌名稱", "brand_name"),
   ("品牌編號", "brand_id"),
   ("通路名稱", "channel_name"),
   ("通路編號", "channel_id"),
   ("電銷模式", "sales_model"),
   ("收款方", "payment_receiver"),
   ("通路類型", "channel_type"),
   ("金流名稱", "payment_method_name"),
   ("金流編號", "payment_method_id"),
   ("支付方式", "payment_type"),
   ("物流名稱", "logistics_name"),
   ("物流編號", "logistics_id"),
   ("運費收入", "shipping_fee_income"),
   ("物流廠商", "logistics_provider"),
   ("物流溫層", "temperature_layer"),
   ("訂單編號", "order_id"),
   ("訂單成立日期", "order_date"),
   ("訂單建議售價", "order_msrp"),
   ("訂單常態售價", "order_regular_price"),
   ("含運實收", "gross_revenue"),
   ("訂單實收", "net_revenue"),
   ("客戶名稱", "customer_name"),
   ("客戶編號", "customer_id"),
   ("E-mail", "email"),
   ("生日", "birthday"),
   ("統一編號", "tax_id"),
   ("商品名稱", "product_name"),
   ("商品編號", "product_id"),
   ("數量", "quantity"),
   ("課稅別", "tax_type"),
   ("收件人姓名", "recipient_name"),
   ("收件人電話", "recipient_phone"),
   ("郵遞區號", "postal_code"),
   ("縣市", "city"),
   ("鄉鎮市區", "district"),
   ("送貨完整地址", "shipping_address"),
   ("_ragicId", "_ragicId"),
   ("_star", "_star"),
   ("_dataTimestamp", "_dataTimestamp"),
   ("_index_title_", "_index_title_"),
   ("_index_calDates_", "_index_calDates_"),
   ("_index_", "_index_"),
   ("_seq", "_seq")]

/-- The entries `FIELD_MAPPING_SALES_SUMMARY` adds over the core table,
verbatim in source order. -/
def SALES_SUMMARY_EXTRAS : List (String × String) :=
  [("匯出狀態", "export_status"),
   ("通路_動態屬性預留欄位_1", "channel_custom_attr_1"),
   ("通路_動態屬性預留欄位_2", "channel_custom_attr_2"),
   ("金流_靜態參數預留欄位_1", "payment_static_attr_1"),
   ("金流_動態屬性預留欄位_1", "payment_dynamic_attr_1"),
   ("發貨點", "shipping_point"),
   ("取貨點", "pickup_point"),
   ("運費支付方式", "shipping_fee_payment_method"),
   ("物流_動態屬性預留欄位_1", "logistics_dynamic_attr_1"),
   ("物流_動態屬性預留欄位_2", "logistics_dynamic_attr_2"),
   ("平台訂單號碼", "platform_order_id"),
   ("訂單備註", "order_notes"),
   ("開立發票與否", "is_invoice_issued"),
   ("發票捐贈", "is_invoice_donated"),
   ("發票捐贈代碼", "invoice_donation_code"),
   ("載具類別", "invoice_carrier_type"),
   ("載具編號", "invoice_carrier_id"),
   ("代收貨款", "cash_on_delivery_amount"),
   ("希望到達日", "requested_delivery_date"),
   ("希望配達時段", "requested_delivery_time"),
   ("行動電話", "mobile_phone"),
   ("通訊完整地址", "full_address"),
   ("市內電話", "phone_number"),
   ("客戶備註", "customer_notes"),
   ("客戶_靜態參數預留欄位_1", "customer_static_attr_1"),
   ("發票抬頭", "invoice_recipient"),
   ("客戶_靜態參數自定義_1", "customer_static_custom_1"),
   ("客戶_靜態參數自定義_2", "customer_static_custom_2"),
   ("買受人身份", "buyer_identity"),
   ("生日年份", "birth_year"),
   ("星座", "zodiac_sign"),
   ("客戶_動態屬性自定義_1", "customer_dynamic_custom_1"),
   ("客戶_動態屬性自定義_2", "customer_dynamic_custom_2"),
   ("商品規格_官方標示", "product_spec_official"),
   ("商品內容", "product_content"),
   ("商品建議售價", "product_msrp"),
   ("商品常態售價", "product_regular_price"),
   ("商品建議售價小計", "product_msrp_subtotal"),
   ("商品常態售價小計", "product_regular_price_subtotal"),
   ("商品結構", "product_structure"),
   ("商品系列", "product_series"),
   ("商品_動態屬性自定義_1", "product_dynamic_custom_1"),
   ("商品_動態屬性自定義_2", "product_dynamic_custom_2"),
   ("「金流更新」執行時間", "payment_update_execution_time"),
   ("通路活動號碼1", "channel_promo_1"),
   ("通路活動號碼2", "channel_promo_2"),
   ("通路活動號碼3", "channel_promo_3"),
   ("通路活動號碼4", "channel_promo_4"),
   ("通路活動號碼5", "channel_promo_5"),
   ("物流訂單編號", "logistics_order_id"),
   ("RAGIC_AUTOGEN_1622007913868", "RAGIC_AUTOGEN_1622007913868"),
   ("RAGIC_AUTOGEN_1622007913873", "RAGIC_AUTOGEN_1622007913873"),
   ("_index_", "_index_"),
   ("_index_calDates_", "_index_calDates_"),
   ("_index_title_", "_index_title_")]

/-- `FIELD_MAPPING_SALES_SUMMARY`. -/
def FIELD_MAPPING_SALES_SUMMARY : List (String × String) :=
  dictMerge FIELD_MAPPING_CORE SALES_SUMMARY_EXTRAS

/-- The `FIELD_MAPPING_BY_SHEET` table. -/
def FIELD_MAPPING_BY_SHEET : List (String × List (String × String)) :=
  [("10", dictMerge FIELD_MAPPING_CORE
      [("合約起始日期", "contract_start_date"),
       ("合約終止日期", "contract_end_date"),
       ("內容說明", "description"),
       ("寄件人", "sender_name"),
       ("寄件人電話", "sender_phone"),
       ("寄件人地址", "sender_address")]),
   ("20", dictMerge FIELD_MAPPING_CORE
      [("合作內容", "cooperation_details"),
       ("姓名", "contact_name"),
       ("職稱", "job_title"),
       ("即時通訊帳號", "im_account"),
       ("電話", "phone_number"),
       ("手機", "mobile_phone"),
       ("通路_動態屬性預留欄位_1", "channel_dynamic_attr_1"),
       ("通路_動態屬性預留欄位_2", "channel_dynamic_attr_2")]),
   ("30", dictMerge FIELD_MAPPING_CORE
      [("金流類型", "payment_category"),
       ("手續費率", "commission_rate"),
       ("金流_靜態參數預留欄位_1", "payment_static_attr_1"),
       ("金流_動態屬性預留欄位_1", "payment_dynamic_attr_1")]),
   ("40", dictMerge FIELD_MAPPING_CORE
      [("物流類型", "logistics_type"),
       ("運費", "shipping_fee"),
       ("物流客代名稱", "logistics_customer_name"),
       ("物流客代編號", "logistics_customer_id"),
       ("發貨點", "shipping_point"),
       ("取貨點", "pickup_point"),
       ("運費支付方式", "shipping_fee_payment_method"),
       ("物流_動態屬性預留欄位_1", "logistics_dynamic_attr_1"),
       ("物流_動態屬性預留欄位_2", "logistics_dynamic_attr_2")]),
   ("41", dictMerge FIELD_MAPPING_CORE
      [("郵遞區號", "postal_code"),
       ("縣市", "city"),
       ("鄉鎮市區", "district"),
       ("縣市及鄉鎮市區", "city_and_district")]),
   ("50", dictMerge FIELD_MAPPING_CORE
      [("平台訂單號碼", "platform_order_id"),
       ("訂單編號", "order_id")]),
   ("60", dictMerge FIELD_MAPPING_CORE
      [("客戶名稱", "customer_name"),
       ("客戶編號", "customer_id")]),
   ("70", dictMerge FIELD_MAPPING_CORE
      [("商品名稱", "product_name"),
       ("商品編號", "product_id"),
       ("商品規格_官方標示", "product_spec_official"),
       ("商品內容", "product_content"),
       ("內容說明", "description"),
       ("商品建議售價", "product_msrp"),
       ("商品常態售價", "product_regular_price"),
       ("商品建議售價小計", "product_msrp_subtotal"),
       ("商品常態售價小計", "product_regular_price_subtotal"),
       ("商品結構", "product_structure"),
       ("商品系列", "product_series"),
       ("商品_動態屬性自定義_1", "product_dynamic_custom_1"),
       ("商品_動態屬性自定義_2", "product_dynamic_custom_2")]),
   ("99", FIELD_MAPPING_SALES_SUMMARY)]

/-- Embedding of `get_field_mapping` with no dynamic mapper attached
(`dynamic_mapper=None`, so the Layer-2 update is skipped):
`FIELD_MAPPING_BY_SHEET.get(sheet_code, FIELD_MAPPING_CORE)`. -/
def get_field_mapping (sheetCode : String) : List (String × String) :=
  (assocGet FIELD_MAPPING_BY_SHEET sheetCode).getD FIELD_MAPPING_CORE

/-- Embedding of `auto_convert_field_name` with the default `pinyin`
strategy: join the transliteration parts with underscores, lower-case,
replace every non-alphanumeric non-underscore character with an
underscore, and prepend `auto_`; if `lazy_pinyin` raises, fall back to
the hash strategy, `unknown_` plus the first eight hex digits of the
MD5 of the name. -/
def auto_convert_field_name (lazyPinyin : String → Option (List String))
    (md5hex : String → String) (chineseField : String) : String :=
  match lazyPinyin chineseField with
  | some parts =>
      let english := (String.intercalate "_" parts).toLower
      let cleaned := String.mk (english.toList.map
        (fun c => if c.isAlphanum || c = '_' then c else '_'))
      "auto_" ++ cleaned
  | none => "unknown_" ++ pyTake (md5hex chineseField) 8

/-- Embedding of `translate_field` (the dynamic-mapper logging is a
fire-and-forget side effect and carries no data flow): mapped names come
back from the table and are not unknown; unmapped names take the
deterministic fallback and are flagged unknown. -/
def translate_field (lazyPinyin : String → Option (List String))
    (md5hex : String → String) (chineseField : String)
    (mappings : List (String × String)) : String × Bool :=
  match assocGet mappings chineseField with
  | some english => (english, false)
  | none => (auto_convert_field_name lazyPinyin md5hex chineseField, true)

/-! Concrete scenario data (the spec's boundary-inclusion scenario:
watermark 2025-01-01T00:00:00Z, page size 2, three records sorted
ascending by id with modification timestamps 2024-12-31T23:00Z,
2025-01-01T00:00Z, 2025-01-02T00:00Z). -/

/-- Default candidate modification-field names (erp_backup_main.py). -/
def SCEN_NAMES : List String :=
  ["最後修改日期", "最後修改時間", "更新時間", "最後更新時間"]

/-- Scenario record with timestamp one hour before the watermark. -/
def SCEN_R1 : RagicRecord := [("_ragicId", "1"), ("最後修改日期", "2024-12-31T23:00Z")]

/-- Scenario record with timestamp exactly at the watermark. -/
def SCEN_R2 : RagicRecord := [("_ragicId", "2"), ("最後修改日期", "2025-01-01T00:00Z")]

/-- Scenario record with timestamp one day after the watermark. -/
def SCEN_R3 : RagicRecord := [("_ragicId", "3"), ("最後修改日期", "2025-01-02T00:00Z")]

/-- The scenario table, ascending by id. -/
def SCEN_TBL : List RagicRecord := [SCEN_R1, SCEN_R2, SCEN_R3]

/-- The scenario watermark 2025-01-01T00:00:00Z as a UTC instant
(`toEpochSeconds ⟨2025, 1, 1, 0, 0, 0⟩`). -/
def SCEN_W : Int := 1735689600

/-- The transport of the C7 counterexample: the first page (offset 0)
succeeds with one record, every later page request times out on both the
first attempt and the quick retry. -/
def netC7 : Net := fun offset _ =>
  if offset = 0 then .ok [[("最後修改日期", "2025/06/01 00:00:00")]]
  else .readTimeout

/-- The null-or-blank-or-missing test of the claim on the raw business
identifier: the record has no `_ragicId` field, or its value is null, or
a blank string. -/
def rawIdMissing (item : RawRec) : Bool :=
  match assocGet item "_ragicId" with
  | none => true
  | some .null => true
  | some (.str s) => pyStrip s = ""
  | some (.int _) => false

/-- Value shape at the `_ragicId` key of a built record: only null or a
string is ever stored there. -/
def RagicIdShape (out : OutRec) : Prop :=
  ∀ t, assocGet out "_ragicId" = some t → t = TVal.null ∨ ∃ s, t = TVal.str s

/-! Theorems. -/

set_option maxRecDepth 40000

/-- C10: `truncate_table` raises `ValueError` and issues no warehouse
action whenever it is called without `confirm=True`; with `confirm=True`
(and a healthy client) it ensures the table exists and issues the
`TRUNCATE TABLE` statement, so the table can only be cleared under the
explicit confirmation. -/
theorem C10_truncate_confirm_guard :
    (∀ (p d t : String) (eOk tOk dOk : Bool),
      truncate_table p d t false eOk tOk dOk =
        (.error "為避免誤刪，truncate_table 需要 confirm=True 才能執行", [])) ∧
    (∀ (p d t : String) (dOk : Bool),
      truncate_table p d t true true true dOk =
        (.ok (), [.ensureTableExists,
          .query ("TRUNCATE TABLE `" ++ (p ++ "." ++ d ++ "." ++ t) ++ "`")])) := by
  constructor
  · intro p d t eOk tOk dOk
    rfl
  · intro p d t dOk
    rfl

/-- C8: a failed direct MERGE triggers exactly one fallback append-insert
for the same batch; a failed fallback insert raises the all-methods-failed
error to the caller; and on every path through the merge strategy the
MERGE is attempted exactly once (never re-run); the direct path of
`upload_data` with `use_merge` enabled (auto mode, batch within the
threshold) is exactly the merge strategy. -/
theorem C8_merge_fallback_once :
    (∀ (n : Nat) (insertOk : Bool),
      upload_with_merge false insertOk n =
        ((upload_with_insert insertOk n true).1,
          [.mergeAttempt, .insertAttempt])) ∧
    (∀ n : Nat,
      upload_with_merge false false n =
        (.error "所有上傳方法都失敗", [.mergeAttempt, .insertAttempt])) ∧
    (∀ (n : Nat) (mergeOk insertOk : Bool),
      ((upload_with_merge mergeOk insertOk n).2.count .mergeAttempt) = 1) ∧
    (∀ (n extra : Nat) (mergeOk insertOk stagingOk : Bool),
      upload_data true "auto" (n + extra) n mergeOk insertOk stagingOk =
        upload_with_merge mergeOk insertOk n) := by
  refine ⟨?_, ?_, ?_, ?_⟩
  · intro n insertOk
    cases insertOk <;> rfl
  · intro n
    rfl
  · intro n mergeOk insertOk
    cases mergeOk <;> cases insertOk <;> rfl
  · intro n extra mergeOk insertOk stagingOk
    have h1 : ("auto" = "staging_sp") = False := by simp
    have h2 : (n + extra < n) = False := by
      simp [Nat.not_lt.mpr (Nat.le_add_right n extra)]
    simp [upload_data, h1, h2]

theorem append_ne_empty (s t : String) (h : s.length ≠ 0) : s ++ t ≠ "" := by
  intro he
  apply h
  have hl := congrArg String.length he
  rw [String.length_append] at hl
  have h0 : ("" : String).length = 0 := rfl
  rw [h0] at hl
  omega

theorem get_field_mapping_values_nonempty (sheetCode : String) :
    ∀ p ∈ get_field_mapping sheetCode, p.2 ≠ "" := by
  intro p hp
  have hcore : FIELD_MAPPING_CORE.all (fun q => !q.2.isEmpty) = true := by decide
  have hby : FIELD_MAPPING_BY_SHEET.all
      (fun q => q.2.all (fun r => !r.2.isEmpty)) = true := by decide
  unfold get_field_mapping at hp
  cases hfind : assocGet FIELD_MAPPING_BY_SHEET sheetCode with
  | none =>
      rw [hfind] at hp
      simp only [Option.getD_none] at hp
      have hone := List.all_eq_true.mp hcore p hp
      simp only [Bool.not_eq_true'] at hone
      intro hpe
      rw [hpe] at hone
      exact absurd hone (by decide)
  | some tbl =>
      rw [hfind] at hp
      simp only [Option.getD_some] at hp
      unfold assocGet at hfind
      cases hf2 : FIELD_MAPPING_BY_SHEET.find? (fun q => q.1 = sheetCode) with
      | none => rw [hf2] at hfind; simp at hfind
      | some q =>
          rw [hf2] at hfind
          simp only [Option.map_some'] at hfind
          have hq2 : q.2 = tbl := by exact Option.some.inj hfind
          have hqmem := List.mem_of_find?_eq_some hf2
          have hall := List.all_eq_true.mp hby q hqmem
          have hone := List.all_eq_true.mp hall p (hq2 ▸ hp)
          simp only [Bool.not_eq_true'] at hone
          intro hpe
          rw [hpe] at hone
          exact absurd hone (by decide)

/-- C9: field-name resolution through `translate_field` over the static
per-sheet mapping tables is total: for every sheet code (unknown codes
fall back to the core table) and every localized name it returns a
non-empty canonical name without raising; a name found in the mapping
comes back from the table and is not flagged unknown; a name absent from
the mapping is flagged unknown and receives the deterministic fallback
(pinyin-derived with prefix `auto_`, or hash-derived with prefix
`unknown_` when the transliterator fails), which, being a pure function
of the name, is the same on every call. -/
theorem C9_field_resolution_total
    (py : String → Option (List String)) (md5 : String → String)
    (sheetCode name : String) :
    (translate_field py md5 name (get_field_mapping sheetCode)).1 ≠ "" ∧
    ((translate_field py md5 name (get_field_mapping sheetCode)).2 = false →
      assocGet (get_field_mapping sheetCode) name =
        some (translate_field py md5 name (get_field_mapping sheetCode)).1) ∧
    ((translate_field py md5 name (get_field_mapping sheetCode)).2 = true →
      assocGet (get_field_mapping sheetCode) name = none ∧
      ((∃ t, (translate_field py md5 name (get_field_mapping sheetCode)).1 =
          "auto_" ++ t) ∨
       (∃ t, (translate_field py md5 name (get_field_mapping sheetCode)).1 =
          "unknown_" ++ t))) := by
  cases hfind : assocGet (get_field_mapping sheetCode) name with
  | some e =>
      have hne : e ≠ "" := by
        unfold assocGet at hfind
        cases hf : (get_field_mapping sheetCode).find? (fun p => p.1 = name) with
        | none => rw [hf] at hfind; simp at hfind
        | some p =>
            rw [hf] at hfind
            simp only [Option.map_some'] at hfind
            have hp2 : p.2 = e := Option.some.inj hfind
            have := get_field_mapping_values_nonempty sheetCode p
              (List.mem_of_find?_eq_some hf)
            exact hp2 ▸ this
      refine ⟨?_, ?_, ?_⟩
      · simp [translate_field, hfind, hne]
      · intro _
        simp [translate_field, hfind]
      · intro htrue
        simp [translate_field, hfind] at htrue
  | none =>
      refine ⟨?_, ?_, ?_⟩
      · simp only [translate_field, hfind]
        cases hpy : py name with
        | some parts =>
            simp only [auto_convert_field_name, hpy]
            exact append_ne_empty _ _ (by decide)
        | none =>
            simp only [auto_convert_field_name, hpy]
            exact append_ne_empty _ _ (by decide)
      · intro hfalse
        simp [translate_field, hfind] at hfalse
      · intro _
        refine ⟨rfl, ?_⟩
        cases hpy : py name with
        | some parts =>
            left
            simp only [translate_field, hfind, auto_convert_field_name, hpy]
            exact ⟨_, rfl⟩
        | none =>
            right
            simp only [translate_field, hfind, auto_convert_field_name, hpy]
            exact ⟨_, rfl⟩

/-- C9 witness: resolution of the known name `訂單編號` on sheet 99 and of
an unknown name under a failing transliterator, at concrete inputs. -/
theorem C9_field_resolution_total_witness :
    assocGet (get_field_mapping "99") "訂單編號" =
      some (translate_field (fun _ => none) (fun _ => "0123456789abcdef")
        "訂單編號" (get_field_mapping "99")).1 ∧
    assocGet (get_field_mapping "99") "這是未知欄位" = none := by
  constructor
  · exact (C9_field_resolution_total (fun _ => none)
      (fun _ => "0123456789abcdef") "99" "訂單編號").2.1 (by decide)
  · exact ((C9_field_resolution_total (fun _ => none)
      (fun _ => "0123456789abcdef") "99" "這是未知欄位").2.2 (by decide)).1

theorem retryAux_success {α : Type} (att : Nat → AttemptOutcome α)
    (maxRetries : Nat) (a : α) :
    ∀ (fuel i k : Nat), i ≤ k → k < i + fuel → k ≤ maxRetries →
      (∀ j, i ≤ j → j < k → att j = .transient) → att k = .success a →
      retryAux att maxRetries fuel i =
        (.ok a, (List.range' i (k - i)).map (2 ^ ·)) := by
  intro fuel
  induction fuel with
  | zero =>
      intro i k h1 h2 _ _ _
      omega
  | succ n ih =>
      intro i k h1 h2 h3 hTrans hSucc
      rcases Nat.eq_or_lt_of_le h1 with heq | hlt
      · subst heq
        simp [retryAux, hSucc]
      · have hAttI : att i = .transient := hTrans i (Nat.le_refl i) hlt
        have hNe : i ≠ maxRetries := by omega
        have hrec := ih (i + 1) k hlt (by omega) h3
          (fun j hj1 hj2 => hTrans j (by omega) hj2) hSucc
        have hki : k - i = (k - (i + 1)) + 1 := by omega
        simp only [retryAux, hAttI, hNe, if_neg, hrec, hki, List.range'_succ]
        simp

theorem retryAux_exhaust {α : Type} (att : Nat → AttemptOutcome α)
    (maxRetries : Nat) :
    ∀ (fuel i : Nat), i + fuel = maxRetries + 1 → i ≤ maxRetries →
      (∀ j, i ≤ j → j ≤ maxRetries → att j = .transient) →
      retryAux att maxRetries fuel i =
        (.error "API 請求失敗（已重試）",
          (List.range' i (maxRetries - i)).map (2 ^ ·)) := by
  intro fuel
  induction fuel with
  | zero =>
      intro i h1 h2 _
      omega
  | succ n ih =>
      intro i h1 hile hTrans
      have hAttI : att i = .transient := hTrans i (Nat.le_refl i) hile
      rcases Nat.eq_or_lt_of_le hile with heq | hlt
      · subst heq
        simp [retryAux, hAttI]
      · have hNe : i ≠ maxRetries := by omega
        have hrec := ih (i + 1) (by omega) (by omega)
          (fun j hj1 hj2 => hTrans j (by omega) hj2)
        have hki : maxRetries - i = (maxRetries - (i + 1)) + 1 := by omega
        simp only [retryAux, hAttI, hNe, if_neg, hrec, hki, List.range'_succ]
        simp

/-- C7 (amended): in `fetch_data`, a page request whose first `k`
attempts hit transient transport errors and whose attempt `k` succeeds
(with `k` within `max_retries`) returns the page after sleeping the
exponential back-offs `2^0 .. 2^(k-1)`; when every attempt up to
`max_retries` is transient, the request raises after the back-offs
`2^0 .. 2^(max_retries-1)` (a table-scoped fatal error).  In
`fetch_since_local_paged`, by contrast, a page request that fails (a
read-timeout followed by a failed single quick retry, or any other
transport error) does not raise: the loop breaks and the records
collected so far are returned. -/
theorem C7_transport_retry_amended :
    (∀ {α : Type} (att : Nat → AttemptOutcome α) (maxRetries k : Nat) (a : α),
      k ≤ maxRetries → (∀ j, j < k → att j = .transient) →
      att k = .success a →
      fetchDataPage att maxRetries = (.ok a, (List.range k).map (2 ^ ·))) ∧
    (∀ {α : Type} (att : Nat → AttemptOutcome α) (maxRetries : Nat),
      (∀ j, j ≤ maxRetries → att j = .transient) →
      fetchDataPage att maxRetries =
        (.error "API 請求失敗（已重試）", (List.range maxRetries).map (2 ^ ·))) ∧
    (∀ (net : Net) (names : List String) (since : PyDT) (untilDt : Option PyDT)
       (limit thresh fuel offset consec : Nat) (acc : List RagicRecord),
      pageFetch net offset = none →
      fetchSinceAux net names since untilDt limit thresh (fuel + 1) offset consec acc =
        .ok acc) := by
  refine ⟨?_, ?_, ?_⟩
  · intro α att maxRetries k a hk hTrans hSucc
    have h := retryAux_success att maxRetries a (maxRetries + 1) 0 k
      (Nat.zero_le k) (by omega) hk (fun j _ hj => hTrans j hj) hSucc
    simpa [fetchDataPage, List.range_eq_range'] using h
  · intro α att maxRetries hTrans
    have h := retryAux_exhaust att maxRetries (maxRetries + 1) 0 (by omega)
      (Nat.zero_le _) (fun j _ hj => hTrans j hj)
    simpa [fetchDataPage, List.range_eq_range'] using h
  · intro net names since untilDt limit thresh fuel offset consec acc hfail
    simp [fetchSinceAux, hfail]

/-- C7 witness: a page request with two transient failures then success
at attempt 2 (max_retries 3) returns the page with back-offs `[1, 2]`,
and a local-filtered page loop at an offset whose fetch fails returns
the collected records. -/
theorem C7_transport_retry_amended_witness :
    fetchDataPage
      (fun j => if j < 2 then AttemptOutcome.transient
                else AttemptOutcome.success (42 : Nat)) 3 =
      (.ok 42, (List.range 2).map (2 ^ ·)) ∧
    fetchSinceAux (fun _ _ => NetResult.failure) ["最後修改日期"] (.utc 0) none
      1000 2 5 0 0 [[("_ragicId", "7")]] = .ok [[("_ragicId", "7")]] := by
  constructor
  · exact C7_transport_retry_amended.1 _ 3 2 42 (by decide)
      (fun j hj => by simp [hj]) (by decide)
  · exact C7_transport_retry_amended.2.2 _ _ _ _ _ _ 4 0 0 _ rfl

/-- C7 counterexample: with watermark 2025-01-01T00:00:00Z, page size 1
and the transport `netC7`, the second page request of
`fetch_since_local_paged` times out on both attempts, yet the fetch does
not raise a fatal error — it silently returns the partial result
collected from the first page, contradicting the claim that exhausted
retries raise a table-scoped fatal error in the local-filtered fetch. -/
theorem C7_transport_retry_counterexample :
    netC7 1 0 = .readTimeout ∧ netC7 1 1 = .readTimeout ∧
    fetch_since_local_paged netC7 ["最後修改日期"] (.utc 1735689600) none
      1 50 2 = .ok [[("最後修改日期", "2025/06/01 00:00:00")]] := by
  refine ⟨rfl, rfl, ?_⟩
  rfl

theorem bestOf_cons {α : Type} (b x : BQRow α) (xs : List (BQRow α)) :
    bestOf b (x :: xs) = bestOf (if uaLT b.updated_at x.updated_at then x else b) xs := rfl

theorem bestOf_eq_or_mem {α : Type} :
    ∀ (l : List (BQRow α)) (b : BQRow α), bestOf b l = b ∨ bestOf b l ∈ l := by
  intro l
  induction l with
  | nil => intro b; left; rfl
  | cons x xs ih =>
      intro b
      rw [bestOf_cons]
      rcases ih (if uaLT b.updated_at x.updated_at then x else b) with h | h
      · rw [h]
        by_cases hc : uaLT b.updated_at x.updated_at
        · right; simp [hc]
        · left; simp [hc]
      · right; exact List.mem_cons_of_mem _ h

theorem bestOf_key {α : Type} (k : Option String) :
    ∀ (l : List (BQRow α)) (b : BQRow α), b.order_id = k →
      (∀ x ∈ l, x.order_id = k) → (bestOf b l).order_id = k := by
  intro l
  induction l with
  | nil => intro b hb _; exact hb
  | cons x xs ih =>
      intro b hb hall
      rw [bestOf_cons]
      refine ih _ ?_ (fun y hy => hall y (List.mem_cons_of_mem _ hy))
      by_cases hc : uaLT b.updated_at x.updated_at
      · simp [hc, hall x (List.mem_cons_self x xs)]
      · simp [hc, hb]

theorem dedupSourceAux_subset {α : Type} :
    ∀ (fuel : Nat) (l : List (BQRow α)), ∀ r ∈ dedupSourceAux fuel l, r ∈ l := by
  intro fuel
  induction fuel with
  | zero => intro l r hr; simp [dedupSourceAux] at hr
  | succ n ih =>
      intro l r hr
      match l with
      | [] => simp [dedupSourceAux] at hr
      | x :: rest =>
          simp only [dedupSourceAux, List.mem_cons] at hr
          rcases hr with hr | hr
          · subst hr
            rcases bestOf_eq_or_mem (rest.filter fun y => y.order_id = x.order_id) x with
              h | h
            · rw [h]; exact List.mem_cons_self x rest
            · exact List.mem_cons_of_mem _ (List.mem_of_mem_filter h)
          · exact List.mem_cons_of_mem _
              (List.mem_of_mem_filter (ih _ r hr))

theorem dedupSourceAux_key_pairwise {α : Type} :
    ∀ (fuel : Nat) (l : List (BQRow α)),
      (dedupSourceAux fuel l).Pairwise (fun a b => a.order_id ≠ b.order_id) := by
  intro fuel
  induction fuel with
  | zero => intro l; simp [dedupSourceAux]
  | succ n ih =>
      intro l
      match l with
      | [] => simp [dedupSourceAux]
      | x :: rest =>
          simp only [dedupSourceAux]
          refine List.Pairwise.cons ?_ (ih _)
          intro b hb
          have hbf := dedupSourceAux_subset n _ b hb
          have hbk : ¬(b.order_id = x.order_id) := by
            have := List.of_mem_filter hbf
            simpa using this
          have hheadk : (bestOf x (rest.filter fun y => y.order_id = x.order_id)).order_id
              = x.order_id := by
            refine bestOf_key x.order_id _ x rfl ?_
            intro y hy
            simpa using List.of_mem_filter hy
          rw [hheadk]
          exact fun h => hbk h.symm

theorem dedupSourceAux_covers {α : Type} :
    ∀ (fuel : Nat) (l : List (BQRow α)), l.length ≤ fuel →
      ∀ r ∈ l, ∃ s ∈ dedupSourceAux fuel l, s.order_id = r.order_id := by
  intro fuel
  induction fuel with
  | zero =>
      intro l hl r hr
      have hnil : l = [] := List.eq_nil_of_length_eq_zero (Nat.le_zero.mp hl)
      subst hnil
      simp at hr
  | succ n ih =>
      intro l hl r hr
      match l with
      | [] => simp at hr
      | x :: rest =>
          have hheadk : (bestOf x (rest.filter fun y => y.order_id = x.order_id)).order_id
              = x.order_id := by
            refine bestOf_key x.order_id _ x rfl ?_
            intro y hy
            simpa using List.of_mem_filter hy
          rcases List.mem_cons.mp hr with hr | hr
          · subst hr
            exact ⟨_, List.mem_cons_self _ _, hheadk⟩
          · by_cases hk : r.order_id = x.order_id
            · exact ⟨_, List.mem_cons_self _ _, by rw [hheadk, hk]⟩
            · have hrf : r ∈ rest.filter fun y => y.order_id ≠ x.order_id := by
                refine List.mem_filter.mpr ⟨hr, ?_⟩
                simpa using hk
              have hlen : (rest.filter fun y => y.order_id ≠ x.order_id).length ≤ n := by
                have h1 := List.length_filter_le (fun y => y.order_id ≠ x.order_id) rest
                have h2 : rest.length ≤ n := by
                  simpa [List.length_cons, Nat.succ_le_succ_iff] using hl
                omega
              obtain ⟨s, hs1, hs2⟩ := ih _ hlen r hrf
              exact ⟨s, List.mem_cons_of_mem _ hs1, hs2⟩

theorem dedupSource_subset {α : Type} (l : List (BQRow α)) :
    ∀ r ∈ dedupSource l, r ∈ l :=
  dedupSourceAux_subset l.length l

theorem dedupSource_key_pairwise {α : Type} (l : List (BQRow α)) :
    (dedupSource l).Pairwise (fun a b => a.order_id ≠ b.order_id) :=
  dedupSourceAux_key_pairwise l.length l

theorem dedupSource_covers {α : Type} (l : List (BQRow α)) :
    ∀ r ∈ l, ∃ s ∈ dedupSource l, s.order_id = r.order_id :=
  dedupSourceAux_covers l.length l (Nat.le_refl _)

theorem rowMatches_of_key_eq {α : Type} {t t' : BQRow α}
    (h : t'.order_id = t.order_id) (s : BQRow α) :
    rowMatches t' s = rowMatches t s := by
  simp [rowMatches, h]

theorem rowMatches_self {α : Type} {s : BQRow α} {k : String}
    (h : s.order_id = some k) : rowMatches s s = true := by
  simp [rowMatches, h]

theorem rowMatches_key_eq {α : Type} {t s : BQRow α}
    (h : rowMatches t s = true) : t.order_id = s.order_id := by
  unfold rowMatches at h
  cases ht : t.order_id <;> cases hs : s.order_id <;> rw [ht, hs] at h <;>
    simp_all

theorem mergeUpdateRow_key {α : Type} (S : List (BQRow α)) (t : BQRow α) :
    (mergeUpdateRow S t).order_id = t.order_id := by
  unfold mergeUpdateRow
  cases S.find? (fun s => rowMatches t s) <;> rfl

theorem mergeUpdateRow_idem {α : Type} (S : List (BQRow α)) (t : BQRow α) :
    mergeUpdateRow S (mergeUpdateRow S t) = mergeUpdateRow S t := by
  have hfind : S.find? (fun x => rowMatches (mergeUpdateRow S t) x) =
      S.find? (fun x => rowMatches t x) := by
    congr 1
    funext x
    exact rowMatches_of_key_eq (mergeUpdateRow_key S t) x
  cases hf : S.find? (fun x => rowMatches t x) with
  | none =>
      have h1 : mergeUpdateRow S t = t := by simp [mergeUpdateRow, hf]
      rw [h1]
      simp [mergeUpdateRow, hf]
  | some s =>
      have h1 : mergeUpdateRow S t =
          { t with updated_at := s.updated_at, payload := s.payload } := by
        simp [mergeUpdateRow, hf]
      have hfind2 : S.find? (fun x => rowMatches
          ({ t with updated_at := s.updated_at, payload := s.payload } : BQRow α) x) =
          some s := by
        have heq : (fun x => rowMatches
            ({ t with updated_at := s.updated_at, payload := s.payload } : BQRow α) x) =
            (fun x => rowMatches t x) := by
          funext x
          exact rowMatches_of_key_eq rfl x
        rw [heq, hf]
      rw [h1]
      simp [mergeUpdateRow, hfind2]

theorem find?_rowMatches_self {α : Type} :
    ∀ (S : List (BQRow α)), S.Pairwise (fun a b => a.order_id ≠ b.order_id) →
      ∀ s ∈ S, s.order_id ≠ none →
        S.find? (fun x => rowMatches s x) = some s := by
  intro S
  induction S with
  | nil => intro _ s hs; simp at hs
  | cons y ys ih =>
      intro hpw s hs hk
      obtain ⟨k, hksome⟩ : ∃ k, s.order_id = some k := by
        cases h : s.order_id with
        | none => exact absurd h hk
        | some k => exact ⟨k, rfl⟩
      rcases List.mem_cons.mp hs with heq | hmem
      · subst heq
        rw [List.find?_cons_of_pos _ (rowMatches_self hksome)]
      · have hkey : rowMatches s y = false := by
          have hne : y.order_id ≠ s.order_id :=
            (List.pairwise_cons.mp hpw).1 s hmem
          cases hrm : rowMatches s y
          · rfl
          · exact absurd (rowMatches_key_eq hrm).symm hne
        rw [List.find?_cons_of_neg _ (by simp [hkey])]
        exact ih (List.pairwise_cons.mp hpw).2 s hmem hk

theorem pairwise_key_filterMap_nodup {α : Type} :
    ∀ (l : List (BQRow α)), l.Pairwise (fun a b => a.order_id ≠ b.order_id) →
      (l.filterMap (fun r => r.order_id)).Nodup := by
  intro l
  induction l with
  | nil => intro _; simp
  | cons x xs ih =>
      intro hpw
      obtain ⟨hx, hxs⟩ := List.pairwise_cons.mp hpw
      cases hk : x.order_id with
      | none => simpa [List.filterMap_cons, hk] using ih hxs
      | some k =>
          simp only [List.filterMap_cons, hk]
          refine List.Nodup.cons ?_ (ih hxs)
          intro hkmem
          obtain ⟨y, hy1, hy2⟩ := List.mem_filterMap.mp hkmem
          exact hx y hy1 (by rw [hy2, hk])

/-- C5 (amended): for a batch in which every typed record carries a
non-null business identifier (`order_id`, the MERGE key), uploading the
batch twice through the direct merge strategy leaves the destination in
exactly the state of uploading it once, and when the destination had no
two rows sharing a (non-null) business identifier, neither does the
result.  (The counterexample shows the restriction to non-null keys is
necessary: SQL `NULL` never matches in the `ON` clause.) -/
theorem C5_merge_idempotent_amended {α : Type} (T B : List (BQRow α))
    (hnn : ∀ r ∈ B, r.order_id ≠ none) :
    mergeUpsert (mergeUpsert T B) B = mergeUpsert T B ∧
    ((T.filterMap (fun r => r.order_id)).Nodup →
      ((mergeUpsert T B).filterMap (fun r => r.order_id)).Nodup) := by
  have hSsub := dedupSource_subset B
  have hSpw := dedupSource_key_pairwise B
  have hSnn : ∀ s ∈ dedupSource B, s.order_id ≠ none :=
    fun s hs => hnn s (hSsub s hs)
  set S := dedupSource B with hSdef
  have hfix : ∀ t' ∈ mergeUpsert T B, mergeUpdateRow S t' = t' := by
    intro t' ht'
    rcases List.mem_append.mp ht' with hupd | hins
    · obtain ⟨t, _, hteq⟩ := List.mem_map.mp hupd
      subst hteq
      exact mergeUpdateRow_idem S t
    · have hsS := List.mem_of_mem_filter hins
      have hfs := find?_rowMatches_self S hSpw t' hsS (hSnn t' hsS)
      simp [mergeUpdateRow, hfs]
  have hins_nil : (S.filter
      (fun s => !((mergeUpsert T B).any (fun t => rowMatches t s)))) = [] := by
    rw [List.filter_eq_nil_iff]
    intro s hsS
    simp only [Bool.not_eq_true', Bool.not_eq_false]
    rw [List.any_eq_true]
    cases hTB : T.any (fun t => rowMatches t s) with
    | true =>
        obtain ⟨t, htT, htm⟩ := List.any_eq_true.mp hTB
        refine ⟨mergeUpdateRow S t, List.mem_append_left _ (List.mem_map_of_mem _ htT), ?_⟩
        rw [rowMatches_of_key_eq (mergeUpdateRow_key S t) s]
        exact htm
    | false =>
        refine ⟨s, List.mem_append_right _ (List.mem_filter.mpr ⟨hsS, by simp [hTB]⟩), ?_⟩
        obtain ⟨k, hk⟩ : ∃ k, s.order_id = some k := by
          cases h : s.order_id with
          | none => exact absurd h (hSnn s hsS)
          | some k => exact ⟨k, rfl⟩
        exact rowMatches_self hk
  constructor
  · show (mergeUpsert T B).map (mergeUpdateRow S) ++ _ = mergeUpsert T B
    rw [hins_nil, List.append_nil]
    calc (mergeUpsert T B).map (mergeUpdateRow S)
        = (mergeUpsert T B).map id := List.map_congr_left hfix
      _ = mergeUpsert T B := List.map_id _
  · intro hT
    show ((T.map (mergeUpdateRow S) ++ S.filter _).filterMap (fun r => r.order_id)).Nodup
    rw [List.filterMap_append]
    have hupd_keys : (T.map (mergeUpdateRow S)).filterMap (fun r => r.order_id) =
        T.filterMap (fun r => r.order_id) := by
      rw [List.filterMap_map]
      congr 1
      funext t
      simp [Function.comp, mergeUpdateRow_key]
    refine List.Nodup.append ?_ ?_ ?_
    · rw [hupd_keys]; exact hT
    · exact pairwise_key_filterMap_nodup _ (List.Pairwise.filter _ hSpw)
    · rw [hupd_keys]
      intro k hk1 hk2
      obtain ⟨s, hs1, hs2⟩ := List.mem_filterMap.mp hk2
      have hsS := List.mem_of_mem_filter hs1
      have hnoT : T.any (fun t => rowMatches t s) = false := by
        have := List.mem_filter.mp hs1
        simpa using this.2
      obtain ⟨t, ht1, ht2⟩ := List.mem_filterMap.mp hk1
      have hrm : rowMatches t s = true := by
        simp [rowMatches, ht2, hs2]
      have hany : T.any (fun t => rowMatches t s) = true :=
        List.any_eq_true.mpr ⟨t, ht1, hrm⟩
      rw [hnoT] at hany
      exact absurd hany (by simp)

/-- C5 witness: idempotence at a concrete batch with non-null keys over a
concrete initial table. -/
theorem C5_merge_idempotent_amended_witness :
    mergeUpsert (mergeUpsert [(⟨some "A", some 1, "old"⟩ : BQRow String)]
        [⟨some "A", some 2, "new"⟩, ⟨some "B", none, "b"⟩])
      [⟨some "A", some 2, "new"⟩, ⟨some "B", none, "b"⟩] =
    mergeUpsert [(⟨some "A", some 1, "old"⟩ : BQRow String)]
      [⟨some "A", some 2, "new"⟩, ⟨some "B", none, "b"⟩] :=
  (C5_merge_idempotent_amended _ _ (by decide)).1

/-- C5 counterexample: a batch holding one record with a NULL business
identifier (a typed record with no `order_id` column, as every non-order
sheet produces).  The MERGE `ON` clause never matches NULL keys, so the
second identical upload inserts the row again: the claim that uploading
the same batch twice equals uploading it once fails on the code. -/
theorem C5_merge_idempotent_counterexample :
    mergeUpsert ([] : List (BQRow String)) [⟨none, none, "x"⟩] =
      [⟨none, none, "x"⟩] ∧
    mergeUpsert (mergeUpsert ([] : List (BQRow String)) [⟨none, none, "x"⟩])
        [⟨none, none, "x"⟩] =
      [⟨none, none, "x"⟩, ⟨none, none, "x"⟩] := by
  constructor <;> rfl

theorem classifyRecord_utc (names : List String) (w : Int) (rec : RagicRecord) :
    classifyRecord names (.utc w) none rec = .ok (qualifies names w rec) := by
  unfold classifyRecord qualifies
  cases recDT names rec <;> simp [awareGE]

theorem processPage_utc (names : List String) (w : Int) :
    ∀ data : List RagicRecord,
      processPage names (.utc w) none data =
        .ok (data.filter (qualifies names w),
             data.any (fun r => (recDT names r).isSome)) := by
  intro data
  induction data with
  | nil => rfl
  | cons r rest ih =>
      simp only [processPage, classifyRecord_utc, ih, List.filter_cons, List.any_cons]

theorem filter_take_add (tbl : List RagicRecord) (p : RagicRecord → Bool)
    (offset limit : Nat) :
    (tbl.take (offset + limit)).filter p =
      (tbl.take offset).filter p ++ ((tbl.drop offset).take limit).filter p := by
  rw [List.take_add, List.filter_append]

theorem fetchSinceAux_empty_stop (net : Net) (names : List String) (since : PyDT)
    (untilDt : Option PyDT) (limit thresh fuel offset consec : Nat)
    (acc : List RagicRecord) (hpage : pageFetch net offset = some []) :
    fetchSinceAux net names since untilDt limit thresh (fuel + 1) offset consec acc =
      .ok acc := by
  simp [fetchSinceAux, hpage]

theorem fetchSinceAux_fail_stop (net : Net) (names : List String) (since : PyDT)
    (untilDt : Option PyDT) (limit thresh fuel offset consec : Nat)
    (acc : List RagicRecord) (hpage : pageFetch net offset = none) :
    fetchSinceAux net names since untilDt limit thresh (fuel + 1) offset consec acc =
      .ok acc := by
  simp [fetchSinceAux, hpage]

theorem fetchSinceAux_step (net : Net) (names : List String) (since : PyDT)
    (untilDt : Option PyDT) (limit thresh fuel offset consec : Nat)
    (acc data quals : List RagicRecord) (anyP : Bool)
    (hpage : pageFetch net offset = some data) (hne : data.isEmpty = false)
    (hproc : processPage names since untilDt data = .ok (quals, anyP)) :
    fetchSinceAux net names since untilDt limit thresh (fuel + 1) offset consec acc =
      (if thresh ≤ (if quals.length = 0 then consec + 1 else 0) ∨
          data.length < limit ∨ anyP = false
       then .ok (acc ++ quals)
       else fetchSinceAux net names since untilDt limit thresh fuel (offset + limit)
              (if quals.length = 0 then consec + 1 else 0) (acc ++ quals)) := by
  simp only [fetchSinceAux, hpage, hne, hproc]
  simp only [List.length_eq_zero]
  by_cases h1 : thresh ≤ (if quals = ([] : List RagicRecord) then consec + 1 else 0)
  · simp [h1]
  · by_cases h2 : data.length < limit
    · simp [h1, h2]
    · by_cases h3 : anyP = false
      · simp [h1, h2, h3]
      · simp [h1, h2, h3]

theorem fetchSinceAux_prefix_filter (tbl : List RagicRecord) (names : List String)
    (w : Int) (limit thresh : Nat) :
    ∀ (fuel offset consec : Nat),
      ∃ n, fetchSinceAux (tableNet tbl limit) names (.utc w) none limit thresh
          fuel offset consec ((tbl.take offset).filter (qualifies names w)) =
        .ok ((tbl.take n).filter (qualifies names w)) := by
  intro fuel
  induction fuel with
  | zero =>
      intro offset consec
      exact ⟨offset, rfl⟩
  | succ m ih =>
      intro offset consec
      have hpage : pageFetch (tableNet tbl limit) offset =
          some ((tbl.drop offset).take limit) := rfl
      have hproc := processPage_utc names w ((tbl.drop offset).take limit)
      have hacc : (tbl.take offset).filter (qualifies names w) ++
          ((tbl.drop offset).take limit).filter (qualifies names w) =
          (tbl.take (offset + limit)).filter (qualifies names w) :=
        (filter_take_add tbl (qualifies names w) offset limit).symm
      cases hemp : ((tbl.drop offset).take limit).isEmpty
      · have hstep := fetchSinceAux_step (tableNet tbl limit) names (.utc w) none
          limit thresh m offset consec
          ((tbl.take offset).filter (qualifies names w))
          ((tbl.drop offset).take limit)
          (((tbl.drop offset).take limit).filter (qualifies names w))
          (((tbl.drop offset).take limit).any (fun r => (recDT names r).isSome))
          hpage hemp hproc
        rw [hstep]
        by_cases hstop : thresh ≤ (if (((tbl.drop offset).take limit).filter
              (qualifies names w)).length = 0 then consec + 1 else 0) ∨
            ((tbl.drop offset).take limit).length < limit ∨
            (((tbl.drop offset).take limit).any (fun r => (recDT names r).isSome)) = false
        · refine ⟨offset + limit, ?_⟩
          rw [if_pos hstop, hacc]
        · rw [if_neg hstop, hacc]
          exact ih (offset + limit) _
      · have hnil : (tbl.drop offset).take limit = [] := List.isEmpty_iff.mp hemp
        refine ⟨offset, ?_⟩
        rw [hnil] at hpage
        exact fetchSinceAux_empty_stop _ _ _ _ _ _ _ _ _ _ hpage

/-- C1 (amended): with a UTC watermark and no upper bound, the
local-filtered fetch returns exactly the records of some prefix of the
id-sorted table — the pages it examined — whose parsed modification time
is at or after the watermark; consequently every retained record has
modification time ≥ the watermark and every examined record strictly
earlier is excluded, but a qualifying record lying beyond an early stop
(the consecutive-empty-pages heuristic) can be missed, so retention of
every qualifying record of the whole table does not hold (see the
counterexample).  The spec's concrete scenario does hold: watermark
2025-01-01T00:00:00Z, page size 2, three records with timestamps
23:00Z / 00:00Z / next day, sorted ascending by id — exactly the last
two are returned, the boundary record included. -/
theorem C1_local_filter_amended :
    (∀ (tbl : List RagicRecord) (names : List String) (w : Int)
       (limit maxPages thresh : Nat),
      ∃ n, fetch_since_local_paged (tableNet tbl limit) names (.utc w) none
          limit maxPages thresh =
        .ok ((tbl.take n).filter (qualifies names w))) ∧
    (∀ (tbl : List RagicRecord) (names : List String) (w : Int)
       (limit maxPages thresh : Nat) (l : List RagicRecord) (r : RagicRecord),
      fetch_since_local_paged (tableNet tbl limit) names (.utc w) none
          limit maxPages thresh = .ok l →
      r ∈ l → qualifies names w r = true) ∧
    fetch_since_local_paged (tableNet SCEN_TBL 2) SCEN_NAMES (.utc SCEN_W) none
        2 50 2 = .ok [SCEN_R2, SCEN_R3] := by
  have hmain : ∀ (tbl : List RagicRecord) (names : List String) (w : Int)
      (limit maxPages thresh : Nat),
      ∃ n, fetch_since_local_paged (tableNet tbl limit) names (.utc w) none
          limit maxPages thresh =
        .ok ((tbl.take n).filter (qualifies names w)) := by
    intro tbl names w limit maxPages thresh
    have h := fetchSinceAux_prefix_filter tbl names w limit thresh maxPages 0 0
    simpa [fetch_since_local_paged] using h
  refine ⟨hmain, ?_, ?_⟩
  · intro tbl names w limit maxPages thresh l r hfetch hr
    obtain ⟨n, hn⟩ := hmain tbl names w limit maxPages thresh
    rw [hfetch] at hn
    have hl : l = (tbl.take n).filter (qualifies names w) := by
      exact Except.ok.inj hn
    subst hl
    exact (List.mem_filter.mp hr).2
  · decide

/-- C1 witness: the exclusion direction applied at the scenario — the
boundary record retained by the scenario fetch qualifies. -/
theorem C1_local_filter_amended_witness :
    qualifies SCEN_NAMES SCEN_W SCEN_R2 = true :=
  C1_local_filter_amended.2.1 SCEN_TBL SCEN_NAMES SCEN_W 2 50 2
    [SCEN_R2, SCEN_R3] SCEN_R2 C1_local_filter_amended.2.2 (by decide)

/-- C1 counterexample: a table of four stale records followed by one
fresh record, with page size 2 and the consecutive-no-new-data threshold
2: the fetch stops after two empty pages and returns nothing, although
the fifth record's modification time is at or after the watermark — so
the unrestricted claim that every record with parsed time ≥ watermark is
retained is false on the code. -/
theorem C1_local_filter_counterexample :
    qualifies ["最後修改日期"] SCEN_W [("最後修改日期", "2025/06/01 00:00:00")] = true ∧
    [("最後修改日期", "2025/06/01 00:00:00")] ∈
      ([[("最後修改日期", "2024/01/01 00:00:00")],
        [("最後修改日期", "2024/01/01 00:00:00")],
        [("最後修改日期", "2024/01/01 00:00:00")],
        [("最後修改日期", "2024/01/01 00:00:00")],
        [("最後修改日期", "2025/06/01 00:00:00")]] : List RagicRecord) ∧
    fetch_since_local_paged
      (tableNet [[("最後修改日期", "2024/01/01 00:00:00")],
        [("最後修改日期", "2024/01/01 00:00:00")],
        [("最後修改日期", "2024/01/01 00:00:00")],
        [("最後修改日期", "2024/01/01 00:00:00")],
        [("最後修改日期", "2025/06/01 00:00:00")]] 2)
      ["最後修改日期"] (.utc SCEN_W) none 2 50 2 = .ok [] := by
  refine ⟨by decide, by decide, by decide⟩

theorem processPage_any (names : List String) (since : PyDT)
    (untilDt : Option PyDT) :
    ∀ (data quals : List RagicRecord) (anyP : Bool),
      processPage names since untilDt data = .ok (quals, anyP) →
      anyP = data.any (fun r => (recDT names r).isSome) := by
  intro data
  induction data with
  | nil =>
      intro quals anyP h
      simp only [processPage, Except.ok.injEq, Prod.mk.injEq] at h
      simp [← h.2]
  | cons r rest ih =>
      intro quals anyP h
      simp only [processPage] at h
      cases hc : classifyRecord names since untilDt r with
      | error e => rw [hc] at h; simp at h
      | ok keep =>
          rw [hc] at h
          cases hrec : processPage names since untilDt rest with
          | error e => rw [hrec] at h; simp at h
          | ok pr =>
              obtain ⟨tl, anyRest⟩ := pr
              rw [hrec] at h
              simp only [Except.ok.injEq, Prod.mk.injEq] at h
              rw [List.any_cons, ← h.2, ih tl anyRest hrec]

/-- C3: the page loop of `fetch_since_local_paged` stops fetching further
pages exactly under the claimed conditions, in the code's order of
evaluation.  With fuel standing for the remaining pages under the
`max_pages` ceiling: (iii) a loop at the ceiling returns the collection;
a page with fewer records than any positive page size includes the empty
page, which stops the loop; for a non-empty fetched page, the loop stops
if and only if (i) the consecutive-no-new-data counter (incremented on a
page with zero qualifying records, reset to zero otherwise) has reached
the threshold, or (ii) the page is shorter than the page size, or
(iv) no record of the page yielded a parseable modification time for any
candidate field name — checked in that order — and otherwise continues at
the next offset with the updated counter and collection; the counter
resets exactly on pages with at least one qualifying record; and the
`any_parsed` flag is false exactly when every record of the page fails to
parse under every candidate name. -/
theorem C3_stop_conditions :
    (∀ (net : Net) (names : List String) (since : PyDT) (untilDt : Option PyDT)
       (limit thresh offset consec : Nat) (acc : List RagicRecord),
      fetchSinceAux net names since untilDt limit thresh 0 offset consec acc =
        .ok acc) ∧
    (∀ (net : Net) (names : List String) (since : PyDT) (untilDt : Option PyDT)
       (limit thresh fuel offset consec : Nat) (acc : List RagicRecord),
      pageFetch net offset = some [] →
      fetchSinceAux net names since untilDt limit thresh (fuel + 1) offset consec acc =
        .ok acc) ∧
    (∀ (net : Net) (names : List String) (since : PyDT) (untilDt : Option PyDT)
       (limit thresh fuel offset consec : Nat)
       (acc data quals : List RagicRecord) (anyP : Bool),
      pageFetch net offset = some data → data.isEmpty = false →
      processPage names since untilDt data = .ok (quals, anyP) →
      fetchSinceAux net names since untilDt limit thresh (fuel + 1) offset consec acc =
        (if thresh ≤ (if quals.length = 0 then consec + 1 else 0) ∨
            data.length < limit ∨ anyP = false
         then .ok (acc ++ quals)
         else fetchSinceAux net names since untilDt limit thresh fuel (offset + limit)
                (if quals.length = 0 then consec + 1 else 0) (acc ++ quals))) ∧
    (∀ (consec : Nat) (quals : List RagicRecord),
      ((if quals.length = 0 then consec + 1 else 0) = 0 ↔ quals ≠ [])) ∧
    (∀ (names : List String) (since : PyDT) (untilDt : Option PyDT)
       (data quals : List RagicRecord) (anyP : Bool),
      processPage names since untilDt data = .ok (quals, anyP) →
      (anyP = false ↔ ∀ r ∈ data, recDT names r = none)) := by
  refine ⟨?_, ?_, ?_, ?_, ?_⟩
  · intro net names since untilDt limit thresh offset consec acc
    rfl
  · intro net names since untilDt limit thresh fuel offset consec acc hpage
    exact fetchSinceAux_empty_stop net names since untilDt limit thresh fuel
      offset consec acc hpage
  · intro net names since untilDt limit thresh fuel offset consec acc data quals
      anyP hpage hne hproc
    exact fetchSinceAux_step net names since untilDt limit thresh fuel offset
      consec acc data quals anyP hpage hne hproc
  · intro consec quals
    cases quals <;> simp
  · intro names since untilDt data quals anyP hproc
    rw [processPage_any names since untilDt data quals anyP hproc]
    constructor
    · intro hall r hr
      have : ¬ (data.any (fun r => (recDT names r).isSome) = true) := by
        simp [hall]
      rw [List.any_eq_true] at this
      push_neg at this
      have hr2 := this r hr
      simpa [Option.isSome_iff_ne_none] using hr2
    · intro hall
      rw [← Bool.not_eq_true, List.any_eq_true]
      push_neg
      intro r hr
      simp [hall r hr]

/-- C3 witness: one step of the loop at the scenario's first page — the
page has a qualifying record so the counter resets, the page is full and
parseable, and the loop continues to the next offset with the boundary
record collected. -/
theorem C3_stop_conditions_witness :
    fetchSinceAux (tableNet SCEN_TBL 2) SCEN_NAMES (.utc SCEN_W) none 2 2 50 0 0 [] =
      (if (2 : Nat) ≤ (if ([SCEN_R2].length = 0) then 0 + 1 else 0) ∨
          ([SCEN_R1, SCEN_R2].length < 2) ∨ (true = false)
       then .ok ([] ++ [SCEN_R2])
       else fetchSinceAux (tableNet SCEN_TBL 2) SCEN_NAMES (.utc SCEN_W) none 2 2 49 2
              (if ([SCEN_R2].length = 0) then 0 + 1 else 0) ([] ++ [SCEN_R2])) :=
  C3_stop_conditions.2.2.1 (tableNet SCEN_TBL 2) SCEN_NAMES (.utc SCEN_W) none
    2 2 49 0 0 [] [SCEN_R1, SCEN_R2] [SCEN_R2] true rfl (by decide) (by decide)

/-- C2: the record side of the claim holds of `_parse_dt` — a naive
timestamp in one of the supported formats (strptime patterns, or
ISO-8601 without zone) is interpreted as local civil time at the fixed
UTC+8 offset and returned as the corresponding UTC instant, and a
timezone-aware ISO input is converted to UTC — but the watermark side
fails: `fetch_ragic_data_for_sheet` parses `last_sync_time` into a naive
datetime and hands it to `fetch_since_local_paged` with no normalization,
so the `dt >= since_dt` comparison pairs an aware value with a naive one
and raises `TypeError` (the final conjunct evaluates the fetch at the
failing input and observes the error), instead of comparing against a
UTC-normalized watermark as the claim states. -/
theorem C2_timezone_normalization :
    (∀ (v : String) (c : CivilDT), v ≠ "" →
      pyContainsChar (pyStrip v) 'T' = false →
      strptimeAny (pyStrip v) = some c →
      parse_dt v = some (instantOfAware c TAIPEI_OFFSET_MINUTES)) ∧
    (∀ (v : String) (c : CivilDT) (off : Int), v ≠ "" →
      pyContainsChar (pyStrip v) 'T' = true →
      pyFromIso (pyReplaceChar (pyStrip v) 'Z' "+00:00") = some (c, some off) →
      parse_dt v = some (instantOfAware c off)) ∧
    (∀ (v : String) (c : CivilDT), v ≠ "" →
      pyContainsChar (pyStrip v) 'T' = true →
      pyFromIso (pyReplaceChar (pyStrip v) 'Z' "+00:00") = some (c, none) →
      strptimeAny (pyStrip v) = none →
      parse_dt v = some (instantOfAware c TAIPEI_OFFSET_MINUTES)) ∧
    (parseSinceDt "2025/01/01 08:00:00" = some ⟨2025, 1, 1, 8, 0, 0⟩ ∧
     fetch_since_local_paged
        (tableNet [[("最後修改日期", "2025/01/02 00:00:00")]] 1000)
        ["最後修改日期"] (.naive ⟨2025, 1, 1, 8, 0, 0⟩) none 1000 50 2 =
       .error ()) := by
  refine ⟨?_, ?_, ?_, by decide, by decide⟩
  · intro v c hv hT hs
    unfold parse_dt
    rw [if_neg hv]
    simp only [hT, if_false, Bool.false_eq_true]
    rw [hs]
    rfl
  · intro v c off hv hT hiso
    unfold parse_dt
    rw [if_neg hv]
    simp only [hT, if_true, hiso]
  · intro v c hv hT hiso hs
    unfold parse_dt
    rw [if_neg hv]
    simp only [hT, if_true, hiso, hs]
    rfl

/-- C2 witness: the three `_parse_dt` conjuncts applied at concrete
inputs — a slash-format naive timestamp, an aware ISO timestamp at
+08:00, and a naive ISO timestamp. -/
theorem C2_timezone_normalization_witness :
    parse_dt "2025/01/02 00:00:00" =
      some (instantOfAware ⟨2025, 1, 2, 0, 0, 0⟩ TAIPEI_OFFSET_MINUTES) ∧
    parse_dt "2024-12-31T23:00+08:00" =
      some (instantOfAware ⟨2024, 12, 31, 23, 0, 0⟩ 480) ∧
    parse_dt "2025-01-02T03:04:05" =
      some (instantOfAware ⟨2025, 1, 2, 3, 4, 5⟩ TAIPEI_OFFSET_MINUTES) := by
  refine ⟨?_, ?_, ?_⟩
  · exact C2_timezone_normalization.1 "2025/01/02 00:00:00" ⟨2025, 1, 2, 0, 0, 0⟩
      (by decide) (by decide) (by decide)
  · exact C2_timezone_normalization.2.1 "2024-12-31T23:00+08:00"
      ⟨2024, 12, 31, 23, 0, 0⟩ 480 (by decide) (by decide) (by decide)
  · exact C2_timezone_normalization.2.2.1 "2025-01-02T03:04:05"
      ⟨2025, 1, 2, 3, 4, 5⟩ (by decide) (by decide) (by decide) (by decide)

theorem assocGet_dictSet_self {β : Type} (d : List (String × β)) (k : String) (v : β) :
    assocGet (dictSet d k v) k = some v := by
  unfold dictSet assocGet
  by_cases hany : d.any (fun p => p.1 = k)
  · rw [if_pos hany, List.find?_map]
    have hpred : ((fun p => decide (p.1 = k)) ∘
        (fun p : String × β => if p.1 = k then (k, v) else p)) =
        fun p => decide (p.1 = k) := by
      funext p
      by_cases hp : p.1 = k <;> simp [hp]
    rw [hpred]
    cases hf : d.find? (fun p => decide (p.1 = k)) with
    | none =>
        rw [List.find?_eq_none] at hf
        obtain ⟨p, hpmem, hpk⟩ := List.any_eq_true.mp hany
        exact absurd hpk (by simpa using hf p hpmem)
    | some p =>
        have hpk : p.1 = k := by simpa using List.find?_some hf
        simp [hpk]
  · rw [if_neg hany, List.find?_append]
    have hnone : d.find? (fun p => decide (p.1 = k)) = none := by
      rw [List.find?_eq_none]
      intro p hp
      simp only [decide_eq_true_eq]
      intro hpk
      exact hany (List.any_eq_true.mpr ⟨p, hp, by simp [hpk]⟩)
    rw [hnone]
    simp

theorem assocGet_dictSet_ne {β : Type} (d : List (String × β)) (k k' : String) (v : β)
    (h : k' ≠ k) : assocGet (dictSet d k v) k' = assocGet d k' := by
  unfold dictSet assocGet
  by_cases hany : d.any (fun p => p.1 = k)
  · rw [if_pos hany, List.find?_map]
    have hpred : ((fun p => decide (p.1 = k')) ∘
        (fun p : String × β => if p.1 = k then (k, v) else p)) =
        fun p => decide (p.1 = k') := by
      funext p
      by_cases hp : p.1 = k
      · have hne1 : ¬ (k = k') := fun hk => h hk.symm
        have hne2 : ¬ (p.1 = k') := by rw [hp]; exact hne1
        simp [hp, hne1, hne2]
      · simp [hp]
    rw [hpred]
    cases hf : d.find? (fun p => decide (p.1 = k')) with
    | none => simp
    | some p =>
        have hpk : p.1 = k' := by simpa using List.find?_some hf
        have hpne : ¬ p.1 = k := by rw [hpk]; exact h
        simp [hpne]
  · rw [if_neg hany, List.find?_append]
    cases hf : d.find? (fun p => decide (p.1 = k')) with
    | none =>
        have hne : ¬ ((k, v).1 = k') := fun hk => h hk.symm
        rw [List.find?_cons_of_neg _ (by simpa using hne), List.find?_nil]
        simp
    | some p => simp [hf]

theorem convert_ragicId_eq (v : RawVal) (ctx : OutRec) :
    convert_field_type "_ragicId" v ctx =
      .ok (if isFalsyOrBlank v then TVal.str "" else TVal.str (pyStr v)) := by
  unfold convert_field_type
  by_cases hf : isFalsyOrBlank v
  · simp only [hf, if_true]
    rfl
  · simp only [hf, Bool.false_eq_true, if_false]
    rfl

theorem nonNullable_contains_iff (e : String) :
    nonNullableFields.contains e = true ↔ e = "_ragicId" := by
  constructor
  · intro h
    have := List.mem_of_elem_eq_true h
    simpa [nonNullableFields] using this
  · intro h
    exact List.elem_eq_true_of_mem (by simp [nonNullableFields, h])

theorem rawPairs_snd_ne (e k : String) (h : assocGet rawPairs e = some k) :
    k ≠ "_ragicId" := by
  unfold assocGet at h
  cases hf : rawPairs.find? (fun p => p.1 = e) with
  | none => rw [hf] at h; simp at h
  | some p =>
      rw [hf] at h
      simp only [Option.map_some'] at h
      have hmem := List.mem_of_find?_eq_some hf
      have hall : ∀ q ∈ rawPairs, q.2 ≠ "_ragicId" := by decide
      rw [← Option.some.inj h]
      exact hall p hmem

theorem handleValue_invalidRecords (acc : FieldAcc) (english : String) (v : RawVal) :
    (handleValue acc english v).st.invalidRecords = acc.st.invalidRecords := by
  unfold handleValue
  by_cases hb : isNullOrBlank v
  · rw [if_pos hb]
    by_cases hc : nonNullableFields.contains english
    · rw [if_pos hc]
    · rw [if_neg hc]
  · rw [if_neg hb]
    cases hcv : convert_field_type english v acc.out with
    | ok cv =>
        cases hr : assocGet rawPairs english with
        | none => rfl
        | some rawKey =>
            cases v with
            | str s =>
                by_cases hs : pyStrip s ≠ ""
                · simp [hs]
                · simp [hs]
            | null => rfl
            | int n => rfl
    | error e => rfl

theorem processField_invalidRecords (cfg : TConfig) (acc : FieldAcc)
    (ck : String) (v : RawVal) :
    (processField cfg acc ck v).st.invalidRecords = acc.st.invalidRecords := by
  unfold processField
  cases assocGet cfg.fieldMapping ck with
  | some english => exact handleValue_invalidRecords acc english v
  | none =>
      by_cases hd : cfg.dropUnmapped
      · simp [hd]
      · simp only [hd, Bool.false_eq_true, if_false]
        exact handleValue_invalidRecords _ ck v

theorem handleValue_preserve (acc : FieldAcc) (english : String) (v : RawVal)
    (hne : english ≠ "_ragicId") :
    assocGet (handleValue acc english v).out "_ragicId" = assocGet acc.out "_ragicId" ∧
    (handleValue acc english v).invalid = acc.invalid := by
  have hget : ∀ (d : OutRec) (t : TVal),
      assocGet (dictSet d english t) "_ragicId" = assocGet d "_ragicId" :=
    fun d t => assocGet_dictSet_ne d english "_ragicId" t (fun h => hne h.symm)
  have hcont : nonNullableFields.contains english = false := by
    cases hc : nonNullableFields.contains english
    · rfl
    · exact absurd ((nonNullable_contains_iff english).mp hc) hne
  have hnn : ¬ (nonNullableFields.contains english = true) := by
    rw [hcont]
    simp
  unfold handleValue
  by_cases hb : isNullOrBlank v
  · rw [if_pos hb, if_neg hnn]
    exact ⟨hget _ _, rfl⟩
  · rw [if_neg hb]
    cases hcv : convert_field_type english v acc.out with
    | ok cv =>
        cases hr : assocGet rawPairs english with
        | none => exact ⟨hget _ _, rfl⟩
        | some rawKey =>
            have hrne : rawKey ≠ "_ragicId" := rawPairs_snd_ne english rawKey hr
            have hgetr : ∀ (d : OutRec) (t : TVal),
                assocGet (dictSet d rawKey t) "_ragicId" = assocGet d "_ragicId" :=
              fun d t => assocGet_dictSet_ne d rawKey "_ragicId" t (fun h => hrne h.symm)
            cases v with
            | str s =>
                by_cases hs : pyStrip s ≠ ""
                · exact ⟨by simp [hs, hgetr, hget], by simp [hs]⟩
                · exact ⟨by simp [hs, hget], by simp [hs]⟩
            | null => exact ⟨hget _ _, rfl⟩
            | int n => exact ⟨hget _ _, rfl⟩
    | error e =>
        refine ⟨?_, rfl⟩
        cases hr : assocGet rawPairs english with
        | none => exact hget _ _
        | some rawKey =>
            have hrne : rawKey ≠ "_ragicId" := rawPairs_snd_ne english rawKey hr
            exact (assocGet_dictSet_ne _ rawKey "_ragicId" _
              (fun h => hrne h.symm)).trans (hget _ _)

theorem processField_preserve (cfg : TConfig) (acc : FieldAcc) (ck : String)
    (v : RawVal) (hck : ck ≠ "_ragicId")
    (hmap : ∀ p ∈ cfg.fieldMapping, p.2 = "_ragicId" → p.1 = "_ragicId") :
    assocGet (processField cfg acc ck v).out "_ragicId" = assocGet acc.out "_ragicId" ∧
    (processField cfg acc ck v).invalid = acc.invalid := by
  unfold processField
  cases hm : assocGet cfg.fieldMapping ck with
  | some english =>
      have hene : english ≠ "_ragicId" := by
        intro he
        unfold assocGet at hm
        cases hf : cfg.fieldMapping.find? (fun p => p.1 = ck) with
        | none => rw [hf] at hm; simp at hm
        | some p =>
            rw [hf] at hm
            simp only [Option.map_some'] at hm
            have hp1 : p.1 = ck := by simpa using List.find?_some hf
            have hp2 : p.2 = "_ragicId" := by
              rw [Option.some.inj hm, he]
            have := hmap p (List.mem_of_find?_eq_some hf) hp2
            exact hck (hp1 ▸ this)
      exact handleValue_preserve acc english v hene
  | none =>
      by_cases hd : cfg.dropUnmapped
      · simp [hd]
      · simp only [hd, Bool.false_eq_true, if_false]
        exact handleValue_preserve _ ck v hck

theorem handleValue_out_ragicId (acc : FieldAcc) (v : RawVal) :
    ∃ t, (t = TVal.null ∨ ∃ s, t = TVal.str s) ∧
      (handleValue acc "_ragicId" v).out = dictSet acc.out "_ragicId" t := by
  unfold handleValue
  by_cases hb : isNullOrBlank v
  · rw [if_pos hb]
    by_cases hc : nonNullableFields.contains "_ragicId"
    · rw [if_pos hc]
      exact ⟨.null, Or.inl rfl, rfl⟩
    · rw [if_neg hc]
      exact ⟨.null, Or.inl rfl, rfl⟩
  · rw [if_neg hb]
    rw [convert_ragicId_eq]
    by_cases hf : isFalsyOrBlank v
    · rw [if_pos hf]
      exact ⟨.str "", Or.inr ⟨"", rfl⟩, rfl⟩
    · rw [if_neg hf]
      exact ⟨.str (pyStr v), Or.inr ⟨_, rfl⟩, rfl⟩

theorem handleValue_shape (acc : FieldAcc) (english : String) (v : RawVal)
    (h : RagicIdShape acc.out) : RagicIdShape (handleValue acc english v).out := by
  by_cases he : english = "_ragicId"
  · subst he
    obtain ⟨t0, ht0, hout⟩ := handleValue_out_ragicId acc v
    intro t ht
    rw [hout, assocGet_dictSet_self] at ht
    exact (Option.some.inj ht) ▸ ht0
  · intro t ht
    rw [(handleValue_preserve acc english v he).1] at ht
    exact h t ht

theorem processField_shape (cfg : TConfig) (acc : FieldAcc) (ck : String)
    (v : RawVal) (h : RagicIdShape acc.out) :
    RagicIdShape (processField cfg acc ck v).out := by
  unfold processField
  cases hm : assocGet cfg.fieldMapping ck with
  | some english => exact handleValue_shape acc english v h
  | none =>
      by_cases hd : cfg.dropUnmapped
      · rw [if_pos hd]
        exact h
      · rw [if_neg hd]
        exact handleValue_shape _ ck v h

theorem foldl_shape (cfg : TConfig) :
    ∀ (fields : List (String × RawVal)) (acc : FieldAcc), RagicIdShape acc.out →
      RagicIdShape ((fields.foldl (fun a p => processField cfg a p.1 p.2) acc).out) := by
  intro fields
  induction fields with
  | nil => intro acc h; exact h
  | cons p rest ih =>
      intro acc h
      exact ih _ (processField_shape cfg acc p.1 p.2 h)

theorem foldl_invalidRecords (cfg : TConfig) :
    ∀ (fields : List (String × RawVal)) (acc : FieldAcc),
      ((fields.foldl (fun a p => processField cfg a p.1 p.2) acc).st.invalidRecords) =
        acc.st.invalidRecords := by
  intro fields
  induction fields with
  | nil => intro acc; rfl
  | cons p rest ih =>
      intro acc
      rw [List.foldl_cons, ih, processField_invalidRecords]

theorem processField_eq_handleValue (cfg : TConfig) (acc : FieldAcc) (ck : String)
    (v : RawVal) (english : String)
    (hm : assocGet cfg.fieldMapping ck = some english) :
    processField cfg acc ck v = handleValue acc english v := by
  unfold processField
  rw [hm]

theorem processField_eq_unknown (cfg : TConfig) (acc : FieldAcc) (ck : String)
    (v : RawVal) (hm : assocGet cfg.fieldMapping ck = none) :
    processField cfg acc ck v =
      (if cfg.dropUnmapped then
        { acc with st := { acc.st with
            unknownFieldsCount := acc.st.unknownFieldsCount + 1,
            unknownFieldCounts := bumpCount acc.st.unknownFieldCounts ck } }
      else handleValue { acc with st := { acc.st with
            unknownFieldsCount := acc.st.unknownFieldsCount + 1,
            unknownFieldCounts := bumpCount acc.st.unknownFieldCounts ck } } ck v) := by
  unfold processField
  rw [hm]

theorem handleValue_null_out (acc : FieldAcc) (english : String) (v : RawVal)
    (hb : isNullOrBlank v = true) :
    (handleValue acc english v).out = dictSet acc.out english TVal.null := by
  unfold handleValue
  rw [if_pos hb]
  by_cases hc : nonNullableFields.contains english
  · rw [if_pos hc]
  · rw [if_neg hc]

theorem processField_nullinv (cfg : TConfig) (acc : FieldAcc) (ck : String)
    (v : RawVal)
    (hmap : ∀ p ∈ cfg.fieldMapping, p.2 = "_ragicId" → p.1 = "_ragicId")
    (hQ : ck = "_ragicId" → isNullOrBlank v = true)
    (hprev : assocGet acc.out "_ragicId" = none ∨
      assocGet acc.out "_ragicId" = some TVal.null) :
    assocGet (processField cfg acc ck v).out "_ragicId" = none ∨
      assocGet (processField cfg acc ck v).out "_ragicId" = some TVal.null := by
  by_cases hck : ck = "_ragicId"
  · subst hck
    have hb := hQ rfl
    cases hm : assocGet cfg.fieldMapping "_ragicId" with
    | some english =>
        rw [processField_eq_handleValue cfg acc _ v english hm]
        by_cases he : english = "_ragicId"
        · subst he
          right
          rw [handleValue_null_out acc _ v hb]
          exact assocGet_dictSet_self acc.out "_ragicId" TVal.null
        · rcases hprev with h | h
          · left
            rw [(handleValue_preserve acc english v he).1]
            exact h
          · right
            rw [(handleValue_preserve acc english v he).1]
            exact h
    | none =>
        rw [processField_eq_unknown cfg acc _ v hm]
        by_cases hd : cfg.dropUnmapped
        · rw [if_pos hd]
          exact hprev
        · rw [if_neg hd]
          right
          rw [handleValue_null_out _ _ v hb]
          exact assocGet_dictSet_self _ "_ragicId" TVal.null
  · rcases hprev with h | h
    · left
      rw [(processField_preserve cfg acc ck v hck hmap).1]
      exact h
    · right
      rw [(processField_preserve cfg acc ck v hck hmap).1]
      exact h

theorem foldl_nullinv (cfg : TConfig)
    (hmap : ∀ p ∈ cfg.fieldMapping, p.2 = "_ragicId" → p.1 = "_ragicId") :
    ∀ (fields : List (String × RawVal)) (acc : FieldAcc),
      (∀ p ∈ fields, p.1 = "_ragicId" → isNullOrBlank p.2 = true) →
      (assocGet acc.out "_ragicId" = none ∨
        assocGet acc.out "_ragicId" = some TVal.null) →
      (assocGet ((fields.foldl (fun a p => processField cfg a p.1 p.2) acc).out)
          "_ragicId" = none ∨
       assocGet ((fields.foldl (fun a p => processField cfg a p.1 p.2) acc).out)
          "_ragicId" = some TVal.null) := by
  intro fields
  induction fields with
  | nil => intro acc _ hprev; exact hprev
  | cons p rest ih =>
      intro acc hall hprev
      rw [List.foldl_cons]
      refine ih _ (fun q hq => hall q (List.mem_cons_of_mem _ hq)) ?_
      exact processField_nullinv cfg acc p.1 p.2 hmap
        (fun h1 => hall p (List.mem_cons_self _ _) h1) hprev

theorem assocGet_of_mem_nodup {β : Type} :
    ∀ (l : List (String × β)) (k : String) (v : β),
      (l.map Prod.fst).Nodup → (k, v) ∈ l → assocGet l k = some v := by
  intro l
  induction l with
  | nil =>
      intro k v _ hm
      exact absurd hm (List.not_mem_nil _)
  | cons p rest ih =>
      intro k v hnd hm
      rw [List.map_cons, List.nodup_cons] at hnd
      rcases List.mem_cons.mp hm with heq | hmem
      · cases heq
        unfold assocGet
        rw [List.find?_cons_of_pos _ (by simp)]
        rfl
      · have hpne : ¬ (p.1 = k) := by
          intro hpk
          exact hnd.1 (hpk ▸ List.mem_map.mpr ⟨(k, v), hmem, rfl⟩)
        unfold assocGet
        rw [List.find?_cons_of_neg _ (by simpa using hpne)]
        exact ih k v hnd.2 hmem

theorem fieldLoop_shape (cfg : TConfig) (st : TState) (item : RawRec) :
    RagicIdShape (fieldLoop cfg st item).out := by
  unfold fieldLoop
  refine foldl_shape cfg item _ ?_
  intro t ht
  exact absurd ht (by simp [assocGet])

theorem fieldLoop_invalidRecords (cfg : TConfig) (st : TState) (item : RawRec) :
    (fieldLoop cfg st item).st.invalidRecords = st.invalidRecords := by
  unfold fieldLoop
  exact foldl_invalidRecords cfg item _

theorem fieldLoop_null_id (cfg : TConfig) (st : TState) (item : RawRec)
    (hmap : ∀ p ∈ cfg.fieldMapping, p.2 = "_ragicId" → p.1 = "_ragicId")
    (hnd : (item.map Prod.fst).Nodup) (hmiss : rawIdMissing item = true) :
    ragicIdOK (fieldLoop cfg st item).out = false := by
  have hall : ∀ p ∈ item, p.1 = "_ragicId" → isNullOrBlank p.2 = true := by
    intro p hp hk
    have hg : assocGet item "_ragicId" = some p.2 := by
      have := assocGet_of_mem_nodup item p.1 p.2 hnd hp
      rw [hk] at this
      exact this
    unfold rawIdMissing at hmiss
    rw [hg] at hmiss
    cases hv : p.2 with
    | null => rfl
    | str s =>
        rw [hv] at hmiss
        simpa [isNullOrBlank] using hmiss
    | int n =>
        rw [hv] at hmiss
        exact absurd hmiss (by simp)
  have hinv := foldl_nullinv cfg hmap item ⟨[], [], false, st⟩ hall
    (Or.inl (by simp [assocGet]))
  unfold fieldLoop
  unfold ragicIdOK
  rcases hinv with h | h
  · rw [h]
  · rw [h]

theorem tsr_of_valid (cfg : TConfig) (st : TState) (item : RawRec) (idx : Nat)
    (hid : ragicIdOK (fieldLoop cfg st item).out = true)
    (hinv : (fieldLoop cfg st item).invalid = false) :
    transform_single_record cfg st item idx =
      (some (dictSet (fieldLoop cfg st item).out "sheet_code" (TVal.str cfg.sheetCode)),
       (fieldLoop cfg st item).st) := by
  unfold transform_single_record
  simp [hid, hinv]

theorem tsr_of_invalid (cfg : TConfig) (st : TState) (item : RawRec) (idx : Nat)
    (hbad : ((fieldLoop cfg st item).invalid ||
      !ragicIdOK (fieldLoop cfg st item).out) = true) :
    (transform_single_record cfg st item idx).1 = none ∧
    ∃ errs, (transform_single_record cfg st item idx).2.invalidRecords =
      st.invalidRecords ++ [(idx, errs, item)] := by
  unfold transform_single_record
  simp only [hbad, if_true]
  refine ⟨by trivial, ?_⟩
  by_cases hid : ragicIdOK (fieldLoop cfg st item).out = true
  · refine ⟨(fieldLoop cfg st item).errors, ?_⟩
    simp [hid, fieldLoop_invalidRecords]
  · refine ⟨(fieldLoop cfg st item).errors ++ ["缺少必要欄位：_ragicId"], ?_⟩
    simp [hid, fieldLoop_invalidRecords, bumpCount]

theorem tsr_some_char (cfg : TConfig) (st : TState) (item : RawRec) (idx : Nat)
    (out : OutRec) (st2 : TState)
    (h : transform_single_record cfg st item idx = (some out, st2)) :
    out = dictSet (fieldLoop cfg st item).out "sheet_code" (TVal.str cfg.sheetCode) ∧
    ragicIdOK (fieldLoop cfg st item).out = true ∧
    st2.invalidRecords = st.invalidRecords := by
  by_cases hbad : ((fieldLoop cfg st item).invalid ||
      !ragicIdOK (fieldLoop cfg st item).out) = true
  · have h1 := (tsr_of_invalid cfg st item idx hbad).1
    rw [h] at h1
    exact absurd h1 (by simp)
  · rw [Bool.or_eq_true, not_or] at hbad
    obtain ⟨hinv, hnid⟩ := hbad
    have hinv' : (fieldLoop cfg st item).invalid = false :=
      Bool.not_eq_true _ ▸ Bool.eq_false_iff.mpr hinv
    have hid : ragicIdOK (fieldLoop cfg st item).out = true := by
      cases hidc : ragicIdOK (fieldLoop cfg st item).out
      · exact absurd (by rw [hidc]; rfl) hnid
      · rfl
    have heq := tsr_of_valid cfg st item idx hid hinv'
    rw [heq] at h
    obtain ⟨h1, h2⟩ := Prod.mk.injEq _ _ _ _ ▸ h
    refine ⟨(Option.some.inj h1).symm, hid, ?_⟩
    rw [← h2]
    exact fieldLoop_invalidRecords cfg st item

theorem tsr_none_char (cfg : TConfig) (st : TState) (item : RawRec) (idx : Nat)
    (st2 : TState)
    (h : transform_single_record cfg st item idx = (none, st2)) :
    ∃ errs, st2.invalidRecords = st.invalidRecords ++ [(idx, errs, item)] := by
  by_cases hbad : ((fieldLoop cfg st item).invalid ||
      !ragicIdOK (fieldLoop cfg st item).out) = true
  · obtain ⟨h1, errs, heq⟩ := tsr_of_invalid cfg st item idx hbad
    rw [h] at heq
    exact ⟨errs, heq⟩
  · rw [Bool.or_eq_true, not_or] at hbad
    obtain ⟨hinv, hnid⟩ := hbad
    have hinv' : (fieldLoop cfg st item).invalid = false :=
      Bool.not_eq_true _ ▸ Bool.eq_false_iff.mpr hinv
    have hid : ragicIdOK (fieldLoop cfg st item).out = true := by
      cases hidc : ragicIdOK (fieldLoop cfg st item).out
      · exact absurd (by rw [hidc]; rfl) hnid
      · rfl
    have heq := tsr_of_valid cfg st item idx hid hinv'
    rw [heq] at h
    exact absurd (congrArg Prod.fst h) (by simp)

theorem tsr_missing (cfg : TConfig) (st : TState) (item : RawRec) (idx : Nat)
    (hmap : ∀ p ∈ cfg.fieldMapping, p.2 = "_ragicId" → p.1 = "_ragicId")
    (hnd : (item.map Prod.fst).Nodup) (hmiss : rawIdMissing item = true) :
    (transform_single_record cfg st item idx).1 = none ∧
    ∃ errs, (transform_single_record cfg st item idx).2.invalidRecords =
      st.invalidRecords ++ [(idx, errs, item)] := by
  have hid := fieldLoop_null_id cfg st item hmap hnd hmiss
  exact tsr_of_invalid cfg st item idx (by rw [hid]; simp)

theorem tsr_invmono (cfg : TConfig) (st : TState) (item : RawRec) (idx : Nat)
    (x : Nat × List String × RawRec) (hx : x ∈ st.invalidRecords) :
    x ∈ (transform_single_record cfg st item idx).2.invalidRecords := by
  rcases hres : transform_single_record cfg st item idx with ⟨o, st2⟩
  cases o with
  | none =>
      obtain ⟨errs, heq⟩ := tsr_none_char cfg st item idx st2 hres
      rw [heq]
      exact List.mem_append_left _ hx
  | some out =>
      obtain ⟨-, -, heq⟩ := tsr_some_char cfg st item idx out st2 hres
      rw [heq]
      exact hx

theorem transformDataAux_mem (cfg : TConfig) :
    ∀ (batch : List RawRec) (i : Nat) (st : TState) (out : OutRec),
      out ∈ (transformDataAux cfg batch i st).1 →
      ∃ item idx st1 st2,
        transform_single_record cfg st1 item idx = (some out, st2) := by
  intro batch
  induction batch with
  | nil =>
      intro i st out hmem
      exact absurd hmem (List.not_mem_nil _)
  | cons item rest ih =>
      intro i st out hmem
      unfold transformDataAux at hmem
      rcases htsr : transform_single_record cfg st item i with ⟨o, st2⟩
      rw [htsr] at hmem
      cases o with
      | some out0 =>
          have hmem' : out ∈ out0 :: (transformDataAux cfg rest (i + 1) st2).1 := hmem
          rcases List.mem_cons.mp hmem' with heq | hmem2
          · exact ⟨item, i, st, st2, heq ▸ htsr⟩
          · exact ih (i + 1) st2 out hmem2
      | none =>
          exact ih (i + 1) st2 out hmem

theorem transformDataAux_invmono (cfg : TConfig) :
    ∀ (batch : List RawRec) (i : Nat) (st : TState)
      (x : Nat × List String × RawRec), x ∈ st.invalidRecords →
      x ∈ (transformDataAux cfg batch i st).2.invalidRecords := by
  intro batch
  induction batch with
  | nil =>
      intro i st x hx
      exact hx
  | cons item rest ih =>
      intro i st x hx
      unfold transformDataAux
      rcases htsr : transform_single_record cfg st item i with ⟨o, st2⟩
      have hx2 : x ∈ st2.invalidRecords := by
        have := tsr_invmono cfg st item i x hx
        rw [htsr] at this
        exact this
      cases o with
      | some out0 =>
          exact ih (i + 1) st2 x hx2
      | none =>
          exact ih (i + 1) st2 x hx2

theorem transformDataAux_count (cfg : TConfig) :
    ∀ (batch : List RawRec) (i : Nat) (st : TState),
      (transformDataAux cfg batch i st).1.length +
        (transformDataAux cfg batch i st).2.invalidRecords.length =
      batch.length + st.invalidRecords.length := by
  intro batch
  induction batch with
  | nil =>
      intro i st
      simp [transformDataAux]
  | cons item rest ih =>
      intro i st
      unfold transformDataAux
      rcases htsr : transform_single_record cfg st item i with ⟨o, st2⟩
      cases o with
      | some out0 =>
          have hcnt := ih (i + 1) st2
          obtain ⟨-, -, hinvp⟩ := tsr_some_char cfg st item i out0 st2 htsr
          have hl2 : st2.invalidRecords.length = st.invalidRecords.length := by
            rw [hinvp]
          show (out0 :: (transformDataAux cfg rest (i + 1) st2).1).length +
              (transformDataAux cfg rest (i + 1) st2).2.invalidRecords.length =
            (item :: rest).length + st.invalidRecords.length
          simp only [List.length_cons]
          omega
      | none =>
          have hcnt := ih (i + 1) st2
          obtain ⟨errs, hinvp⟩ := tsr_none_char cfg st item i st2 htsr
          have hl2 : st2.invalidRecords.length = st.invalidRecords.length + 1 := by
            rw [hinvp]
            simp
          show (transformDataAux cfg rest (i + 1) st2).1.length +
              (transformDataAux cfg rest (i + 1) st2).2.invalidRecords.length =
            (item :: rest).length + st.invalidRecords.length
          simp only [List.length_cons]
          omega

theorem transformDataAux_report (cfg : TConfig)
    (hmap : ∀ p ∈ cfg.fieldMapping, p.2 = "_ragicId" → p.1 = "_ragicId") :
    ∀ (batch : List RawRec) (j i : Nat) (st : TState) (item : RawRec),
      batch.get? j = some item → (item.map Prod.fst).Nodup →
      rawIdMissing item = true →
      ∃ errs, (i + j, errs, item) ∈
        (transformDataAux cfg batch i st).2.invalidRecords := by
  intro batch
  induction batch with
  | nil =>
      intro j i st item hget _ _
      exact absurd hget (by simp)
  | cons hd rest ih =>
      intro j i st item hget hnd hmiss
      cases j with
      | zero =>
          have hhd : hd = item := Option.some.inj hget
          subst hhd
          unfold transformDataAux
          rcases htsr : transform_single_record cfg st hd i with ⟨o, st2⟩
          have hnone := (tsr_missing cfg st hd i hmap hnd hmiss).1
          rw [htsr] at hnone
          obtain ⟨errs, hinvp⟩ := (tsr_missing cfg st hd i hmap hnd hmiss).2
          rw [htsr] at hinvp
          have ho : o = none := hnone
          subst ho
          have hx : (i, errs, hd) ∈ st2.invalidRecords := by
            rw [hinvp]
            exact List.mem_append_right _ (by simp)
          refine ⟨errs, ?_⟩
          have := transformDataAux_invmono cfg rest (i + 1) st2 (i, errs, hd) hx
          simpa using this
      | succ j' =>
          have hget' : rest.get? j' = some item := hget
          unfold transformDataAux
          rcases htsr : transform_single_record cfg st hd i with ⟨o, st2⟩
          have harith : (i + 1) + j' = i + (j' + 1) := by omega
          cases o with
          | some out0 =>
              obtain ⟨errs, hmem⟩ := ih j' (i + 1) st2 item hget' hnd hmiss
              rw [harith] at hmem
              exact ⟨errs, hmem⟩
          | none =>
              obtain ⟨errs, hmem⟩ := ih j' (i + 1) st2 item hget' hnd hmiss
              rw [harith] at hmem
              exact ⟨errs, hmem⟩

theorem tsr_output_id (cfg : TConfig) (st : TState) (item : RawRec)
    (idx : Nat) (out : OutRec) (st2 : TState)
    (h : transform_single_record cfg st item idx = (some out, st2)) :
    ∃ s, assocGet out "_ragicId" = some (TVal.str s) ∧ pyStrip s ≠ "" := by
  obtain ⟨hout, hid, -⟩ := tsr_some_char cfg st item idx out st2 h
  have hshape := fieldLoop_shape cfg st item
  cases hg : assocGet (fieldLoop cfg st item).out "_ragicId" with
  | none =>
      unfold ragicIdOK at hid
      rw [hg] at hid
      exact absurd hid (by simp)
  | some t =>
      rcases hshape t hg with ht | ⟨s, ht⟩
      · subst ht
        unfold ragicIdOK at hid
        rw [hg] at hid
        exact absurd hid (by simp)
      · subst ht
        unfold ragicIdOK at hid
        rw [hg] at hid
        refine ⟨s, ?_, of_decide_eq_true hid⟩
        rw [hout]
        rw [assocGet_dictSet_ne _ _ _ _ (by decide)]
        exact hg

/-- C4: every record in the output of `transform_data` carries a non-null,
non-blank `_ragicId` string; outputs and invalid-record entries together
account for every input record; and (when the merged field mapping sends
only the raw `_ragicId` column to the canonical `_ragicId` and the raw
record has no duplicate keys, as Python dicts guarantee) a raw record
whose `_ragicId` is missing, null, or blank contributes an invalid-record
entry carrying its index, its error strings, and the original raw
record. -/
theorem C4_record_identity (cfg : TConfig) (batch : List RawRec)
    (hmap : ∀ p ∈ cfg.fieldMapping, p.2 = "_ragicId" → p.1 = "_ragicId") :
    (∀ out ∈ (transform_data cfg batch).1,
       ∃ s, assocGet out "_ragicId" = some (TVal.str s) ∧ pyStrip s ≠ "") ∧
    ((transform_data cfg batch).1.length +
       (transform_data cfg batch).2.invalidRecords.length = batch.length) ∧
    (∀ (i : Nat) (item : RawRec), batch.get? i = some item →
       (item.map Prod.fst).Nodup → rawIdMissing item = true →
       ∃ errs, (i, errs, item) ∈ (transform_data cfg batch).2.invalidRecords) := by
  refine ⟨?_, ?_, ?_⟩
  · intro out hmem
    obtain ⟨item, idx, st1, st2, h⟩ :=
      transformDataAux_mem cfg batch 0 initTState out hmem
    exact tsr_output_id cfg st1 item idx out st2 h
  · have := transformDataAux_count cfg batch 0 initTState
    simpa [transform_data, initTState] using this
  · intro i item hget hnd hmiss
    have := transformDataAux_report cfg hmap batch i 0 initTState item hget hnd hmiss
    simpa [transform_data] using this

/-- C4 witness: at the core mapping restricted to the identifier and one
business column, a record lacking `_ragicId` lands in the invalid-records
report at its index with the original raw record attached. -/
theorem C4_record_identity_witness :
    ∃ errs, (0, errs, [("品牌名稱", RawVal.str "Y")]) ∈
      (transform_data ⟨[("_ragicId", "_ragicId"), ("品牌名稱", "brand_name")], "8", false⟩
        [[("品牌名稱", RawVal.str "Y")]]).2.invalidRecords :=
  (C4_record_identity
      ⟨[("_ragicId", "_ragicId"), ("品牌名稱", "brand_name")], "8", false⟩
      [[("品牌名稱", RawVal.str "Y")]] (by decide)).2.2 0
    [("品牌名稱", RawVal.str "Y")] (by decide) (by decide) (by decide)

theorem float_field_facts : ∀ e ∈ floatFields,
    getDefaultValue e = TVal.float 0 ∧ assocGet rawPairs e = none := by
  decide

theorem integer_field_facts : ∀ e ∈ integerFields,
    getDefaultValue e = TVal.int 0 ∧ assocGet rawPairs e = none ∧
      floatFields.contains e = false := by
  decide

theorem boolean_field_facts : ∀ e ∈ booleanFields,
    getDefaultValue e = TVal.bool false ∧ floatFields.contains e = false ∧
      integerFields.contains e = false := by
  decide

theorem convert_float_fail (e : String) (v : RawVal) (ctx : OutRec)
    (hfF : floatFields.contains e = true)
    (hf : isFalsyOrBlank v = false)
    (hp : pyFloatParse (pyStrip (pyReplaceChar (pyStr v) ',' "")) = none) :
    convert_field_type e v ctx = .error "could not convert string to float" := by
  unfold convert_field_type
  simp only [hf, hfF, Bool.false_eq_true, eq_self_iff_true, if_false, if_true]
  rw [hp]

theorem convert_int_fail (e : String) (v : RawVal) (ctx : OutRec)
    (hiF : integerFields.contains e = true)
    (hflt : floatFields.contains e = false)
    (hf : isFalsyOrBlank v = false)
    (hp : pyFloatParse (pyStrip (pyReplaceChar (pyStr v) ',' "")) = none) :
    convert_field_type e v ctx = .error "could not convert string to float" := by
  unfold convert_field_type
  simp only [hf, hflt, hiF, Bool.false_eq_true, eq_self_iff_true, if_false, if_true]
  rw [hp]

theorem convert_bool_token (e : String) (v : RawVal) (ctx : OutRec)
    (hbF : booleanFields.contains e = true)
    (hflt : floatFields.contains e = false)
    (hint : integerFields.contains e = false)
    (hf : isFalsyOrBlank v = false) :
    convert_field_type e v ctx = .ok (TVal.bool
      (["true", "1", "yes", "是", "開立"].contains
        (pyLower (pyStrip (pyReplaceChar (pyStr v) ',' ""))))) := by
  unfold convert_field_type
  simp only [hf, hflt, hint, hbF, Bool.false_eq_true, eq_self_iff_true,
    if_false, if_true]

theorem convert_bool_blank (e : String) (v : RawVal) (ctx : OutRec)
    (hdef : getDefaultValue e = TVal.bool false)
    (hf : isFalsyOrBlank v = true) :
    convert_field_type e v ctx = .ok (TVal.bool false) := by
  unfold convert_field_type
  simp only [hf, if_true, eq_self_iff_true]
  rw [hdef]

theorem handleValue_error (acc : FieldAcc) (e : String) (v : RawVal) (msg : String)
    (hb : isNullOrBlank v = false)
    (hcv : convert_field_type e v acc.out = .error msg)
    (hraw : assocGet rawPairs e = none) :
    handleValue acc e v =
      { acc with out := dictSet acc.out e (getDefaultValue e),
                 errors := acc.errors ++ ["欄位 " ++ e ++ " 型別不符"],
                 st := { acc.st with
                   failureCounts := bumpCount acc.st.failureCounts e } } := by
  unfold handleValue
  rw [if_neg (by simp [hb])]
  rw [hcv]
  simp only [hraw]

/-- C6: inside the field loop, an unparseable raw value of a declared
float field is replaced by the default `0.0`, of a declared integer field
by `0`, with the per-field failure counter incremented, an error string
recorded, and the record's invalid flag untouched (so the failure never
escapes the record); a declared boolean field never raises (every value
converts to some boolean, and any non-truthy token converts to `False`);
and the thousands-separator scenario `"1,234.50"` on a float field
coerces to the float `1234.5`. -/
theorem C6_coercion_defaults :
    (∀ (e : String) (acc : FieldAcc) (v : RawVal),
       floatFields.contains e = true → isNullOrBlank v = false →
       isFalsyOrBlank v = false →
       pyFloatParse (pyStrip (pyReplaceChar (pyStr v) ',' "")) = none →
       handleValue acc e v =
         { acc with out := dictSet acc.out e (TVal.float 0),
                    errors := acc.errors ++ ["欄位 " ++ e ++ " 型別不符"],
                    st := { acc.st with
                      failureCounts := bumpCount acc.st.failureCounts e } }) ∧
    (∀ (e : String) (acc : FieldAcc) (v : RawVal),
       integerFields.contains e = true → isNullOrBlank v = false →
       isFalsyOrBlank v = false →
       pyFloatParse (pyStrip (pyReplaceChar (pyStr v) ',' "")) = none →
       handleValue acc e v =
         { acc with out := dictSet acc.out e (TVal.int 0),
                    errors := acc.errors ++ ["欄位 " ++ e ++ " 型別不符"],
                    st := { acc.st with
                      failureCounts := bumpCount acc.st.failureCounts e } }) ∧
    (∀ (e : String) (v : RawVal) (ctx : OutRec),
       booleanFields.contains e = true →
       ∃ b, convert_field_type e v ctx = Except.ok (TVal.bool b)) ∧
    (∀ (e : String) (v : RawVal) (ctx : OutRec),
       booleanFields.contains e = true → isFalsyOrBlank v = false →
       ["true", "1", "yes", "是", "開立"].contains
           (pyLower (pyStrip (pyReplaceChar (pyStr v) ',' ""))) = false →
       convert_field_type e v ctx = Except.ok (TVal.bool false)) ∧
    (∀ ctx : OutRec,
       convert_field_type "gross_revenue" (RawVal.str "1,234.50") ctx =
         Except.ok (TVal.float (1234.5 : ℚ))) := by
  refine ⟨?_, ?_, ?_, ?_, ?_⟩
  · intro e acc v hfF hb hf hp
    obtain ⟨hdef, hraw⟩ := float_field_facts e (List.mem_of_elem_eq_true hfF)
    have hcv := convert_float_fail e v acc.out hfF hf hp
    rw [handleValue_error acc e v _ hb hcv hraw, hdef]
  · intro e acc v hiF hb hf hp
    obtain ⟨hdef, hraw, hflt⟩ :=
      integer_field_facts e (List.mem_of_elem_eq_true hiF)
    have hcv := convert_int_fail e v acc.out hiF hflt hf hp
    rw [handleValue_error acc e v _ hb hcv hraw, hdef]
  · intro e v ctx hbF
    obtain ⟨hdef, hflt, hint⟩ :=
      boolean_field_facts e (List.mem_of_elem_eq_true hbF)
    by_cases hf : isFalsyOrBlank v = true
    · exact ⟨false, convert_bool_blank e v ctx hdef hf⟩
    · exact ⟨_, convert_bool_token e v ctx hbF hflt hint
        (Bool.eq_false_iff.mpr hf)⟩
  · intro e v ctx hbF hf htok
    obtain ⟨hdef, hflt, hint⟩ :=
      boolean_field_facts e (List.mem_of_elem_eq_true hbF)
    rw [convert_bool_token e v ctx hbF hflt hint hf, htok]
  · intro ctx
    simp [convert_field_type, pyFloatParse, parseDigitRun, digitVal,
      pyStrip, pyReplaceChar, pyStr, isFalsyOrBlank, pyTruthy,
      isNullOrBlank, floatFields, getDefaultValue, dateFields, timestampFields]
    norm_num

/-- C6 witness: the float field `gross_revenue` with the unparseable raw
string `"abc"` is defaulted to `0.0`, the failure counter is bumped, the
error is recorded, and the record stays valid. -/
theorem C6_coercion_defaults_witness :
    handleValue ⟨[], [], false, initTState⟩ "gross_revenue" (RawVal.str "abc") =
      ⟨[("gross_revenue", TVal.float 0)], ["欄位 gross_revenue 型別不符"], false,
       ⟨0, [], [], [("gross_revenue", 1)]⟩⟩ := by
  have h := C6_coercion_defaults.1 "gross_revenue" ⟨[], [], false, initTState⟩
    (RawVal.str "abc") (by decide) (by decide) (by decide) (by decide)
  rw [h]
  rfl

end RagicBackup
